import Mathlib

/-!
Verification of the classrooms assignment engine.

This file gives a shallow embedding of the Python sources:
  * `src/service/strategies/base_strategy.py` (friendship graph, not-with map)
  * `src/service/class_assignment_service.py` (legacy facade graph builder)
  * `src/service/strategies/greedy_strategy.py` (greedy assignment)
  * `src/service/strategies/cp_sat_strategy.py` (metadata assembly)
  * `src/service/strategies/strategy_factory.py` / coordinator (fallback)
  * `src/service/validators/input_validator.py`
  * `src/service/evaluators/solution_evaluator.py` (overall score)
and proves or refutes the specified properties of those functions.

Modelling conventions:
  * pandas cells that may be NaN are `Option`; `Option.none` models NaN/null,
    `some ""` models an empty-string cell (`pd.notna("") = True` in pandas).
  * Python `float` arithmetic is modelled with exact rationals `ℚ`.
  * Python sets are modelled as lists in insertion order; Python's `min`/`max`
    with a key keep the first extremal element, which we mirror; where Python
    iterates a `set` (an unspecified order) the model fixes insertion order.
-/

namespace Classrooms

/-! ### Python string primitives, modelled structurally -/

/-- Python's `str.strip()` whitespace set (ASCII part). -/
def isPySpace (c : Char) : Bool :=
  c = ' ' || c = '\t' || c = '\n' || c = '\r' || c.toNat = 11 || c.toNat = 12

/-- Python `s.strip()`. -/
def pyStrip (s : String) : String :=
  ⟨((s.data.dropWhile isPySpace).reverse.dropWhile isPySpace).reverse⟩

def pySplitChars (sep : Char) : List Char → List String
  | [] => [""]
  | c :: rest =>
    let r := pySplitChars sep rest
    if c = sep then "" :: r
    else
      match r with
      | [] => [⟨[c]⟩]
      | h :: t => (⟨c :: h.data⟩ : String) :: t

/-- Python `s.split(sep)` for a one-character separator; in particular
`''.split(',') = ['']`. -/
def pySplit (sep : Char) (s : String) : List String :=
  pySplitChars sep s.data

def charListLt : List Char → List Char → Bool
  | [], [] => false
  | [], _ :: _ => true
  | _ :: _, [] => false
  | a :: as, b :: bs =>
    decide (a.toNat < b.toNat) || (decide (a = b) && charListLt as bs)

/-- Python `s < t` on strings: lexicographic comparison of code points. -/
def pyStrLt (a b : String) : Bool := charListLt a.data b.data

/-! ### Exact fractions modelling Python float expressions

The scores computed by the greedy strategy are Python floats built from
integer counts by `+ - * abs` and division by a positive class size; on such
expressions we model the arithmetic exactly, with unreduced fractions (kept
unnormalized, so every operation is structurally computable). -/

structure Frac where
  num : ℤ
  den : ℤ
deriving DecidableEq

def Frac.ofNat (n : ℕ) : Frac := ⟨n, 1⟩

def Frac.ofInt (n : ℤ) : Frac := ⟨n, 1⟩

def Frac.add (a b : Frac) : Frac := ⟨a.num * b.den + b.num * a.den, a.den * b.den⟩

def Frac.sub (a b : Frac) : Frac := ⟨a.num * b.den - b.num * a.den, a.den * b.den⟩

def Frac.fabs (a : Frac) : Frac := ⟨(a.num.natAbs : ℤ), a.den⟩

/-- Division by a (positive) integer count. -/
def Frac.divNat (a : Frac) (n : ℕ) : Frac := ⟨a.num, a.den * n⟩

/-- `a < b` by cross-multiplication; denominators are positive by
construction. -/
def Frac.blt (a b : Frac) : Bool := decide (a.num * b.den < b.num * a.den)

/-- One row of the student table, as consumed by the service layer.
`friends` are the `friend1..friend4` cells, `notWith` the raw comma-separated
cell.  `none` models a missing (NaN) cell. -/
structure StudentRow where
  name : String
  gender : String
  academic : String
  behavioral : String
  friends : List (Option String)
  notWith : Option String
deriving DecidableEq

/-- An undirected friendship graph in the style of `networkx.Graph`:
nodes in insertion order, per-node attributes (gender, academic, behavioral),
and an edge list holding each unordered pair once. -/
structure FGraph where
  nodes : List String
  attrs : List (String × (String × String × String))
  edges : List (String × String)
deriving DecidableEq

def FGraph.empty : FGraph := ⟨[], [], []⟩

/-- Insert-or-replace in an association list (dict semantics). -/
def assocSet (k : String) (v : α) : List (String × α) → List (String × α)
  | [] => [(k, v)]
  | (k', v') :: t => if k' = k then (k, v) :: t else (k', v') :: assocSet k v t

/-- Append a node if absent (`networkx` keeps one copy per node). -/
def insertNode (ns : List String) (n : String) : List String :=
  if n ∈ ns then ns else ns ++ [n]

/-- `G.add_node(name, **attrs)`: add the node if absent, set its attributes. -/
def FGraph.addNode (G : FGraph) (n : String) (a : String × String × String) : FGraph :=
  { G with
    nodes := insertNode G.nodes n
    attrs := assocSet n a G.attrs }

/-- `G.add_edge(a, b)`: both endpoints become nodes if absent (with no
attributes), the undirected edge is stored once. -/
def FGraph.addEdge (G : FGraph) (a b : String) : FGraph :=
  { G with
    nodes := insertNode (insertNode G.nodes a) b
    edges := if (a, b) ∈ G.edges ∨ (b, a) ∈ G.edges then G.edges else G.edges ++ [(a, b)] }

/-- `list(G.neighbors(s))`. -/
def FGraph.neighbors (G : FGraph) (s : String) : List String :=
  G.edges.filterMap fun e =>
    if e.1 = s then some e.2 else if e.2 = s then some e.1 else none

/-- Attribute triple of a node; a node added only through `add_edge` has no
attributes (attribute access raises in Python; this model returns `("","","")`,
which only matters on inputs where the Python code would crash). -/
def FGraph.attrsOf (G : FGraph) (s : String) : String × String × String :=
  ((G.attrs.lookup s).getD ("", "", ""))

/-- One friend cell of `BaseAssignmentStrategy._build_friendship_graph`'s
inner loop: an edge is added for a cell that is non-null (`pd.notna`) and
non-blank after `strip()`. -/
def baseEdgeStep (name : String) (g : FGraph) : Option String → FGraph
  | none => g
  | some v => if pyStrip v ≠ "" then g.addEdge name v else g

/-- One row of `BaseAssignmentStrategy._build_friendship_graph`'s loop:
add the student node with attributes, then scan the four friend cells. -/
def baseRowStep (G : FGraph) (r : StudentRow) : FGraph :=
  r.friends.foldl (baseEdgeStep r.name)
    (G.addNode r.name (r.gender, r.academic, r.behavioral))

/-- `BaseAssignmentStrategy._build_friendship_graph` (base_strategy.py:25-47). -/
def buildGraphBase : List StudentRow → FGraph :=
  go FGraph.empty
where
  go : FGraph → List StudentRow → FGraph
  | G, [] => G
  | G, r :: rs => go (baseRowStep G r) rs

/-- One row of `ClassAssignmentService._build_friendship_graph`'s loop: the
facade builder only tests `pd.notna(friend)`, so an empty-string cell still
adds an edge (and hence a `""` node). -/
def serviceRowStep (G : FGraph) (r : StudentRow) : FGraph :=
  r.friends.foldl
    (fun g f =>
      match f with
      | none => g
      | some v => g.addEdge r.name v)
    (G.addNode r.name (r.gender, r.academic, r.behavioral))

/-- `ClassAssignmentService._build_friendship_graph` (class_assignment_service.py:12-34). -/
def buildGraphService : List StudentRow → FGraph :=
  go FGraph.empty
where
  go : FGraph → List StudentRow → FGraph
  | G, [] => G
  | G, r :: rs => go (serviceRowStep G r) rs

/-- `_build_not_with_dict` (base_strategy.py:49-55): rows whose `notWith` cell
is non-null map to `cell.split(',')` (note: no trimming, and `''.split(',')`
is `['']`, both mirrored by `String.splitOn`). -/
def buildNotWith : List StudentRow → List (String × List String)
  | [] => []
  | r :: rs =>
    match r.notWith with
    | none => buildNotWith rs
    | some s => assocSet r.name (pySplit ',' s) (buildNotWith rs)

/-- `GreedyStrategy._violates_not_with` (greedy_strategy.py:155-159): only the
placed student's own not-with list is consulted (one direction). -/
def violatesNotWith (nw : List (String × List String)) (student : String)
    (classSet : List String) : Bool :=
  match nw.lookup student with
  | none => false
  | some others => others.any (· ∈ classSet)

/-! ### Class statistics (`_calculate_class_stats`, greedy_strategy.py:179-197) -/

/-- The `perf_map = {'LOW': 1, 'MEDIUM': 2, 'HIGH': 3}` lookup (a `KeyError`
in Python on any other value; validation makes other values unreachable). -/
def perfVal (v : String) : ℕ :=
  if v = "LOW" then 1 else if v = "MEDIUM" then 2 else if v = "HIGH" then 3 else 0

def maleRatio (G : FGraph) (cls : List String) : Frac :=
  if cls.length = 0 then Frac.ofNat 0
  else Frac.divNat (Frac.ofNat (cls.countP fun s => decide ((G.attrsOf s).1 = "MALE")))
    cls.length

def academicScore (G : FGraph) (cls : List String) : Frac :=
  if cls.length = 0 then Frac.ofNat 0
  else Frac.divNat (Frac.ofNat (cls.map fun s => perfVal (G.attrsOf s).2.1).sum) cls.length

def behavioralScore (G : FGraph) (cls : List String) : Frac :=
  if cls.length = 0 then Frac.ofNat 0
  else Frac.divNat (Frac.ofNat (cls.map fun s => perfVal (G.attrsOf s).2.2).sum) cls.length

/-! ### Python `min`/`max` with a key: the first extremal element wins. -/

def minByKeyAux (lt : κ → κ → Bool) (key : α → κ) : α → List α → α
  | b, [] => b
  | b, x :: t => minByKeyAux lt key (if lt (key x) (key b) then x else b) t

/-- `min(l, key=key)` where `lt` compares keys: first element with minimal
key (replacement happens only on a strictly smaller key). `max` is obtained
by flipping `lt`. -/
def minByKey (lt : κ → κ → Bool) (key : α → κ) : List α → Option α
  | [] => none
  | h :: t => some (minByKeyAux lt key h t)

/-- Lexicographic `<` on `ℕ × ℕ` pairs (Python tuple comparison). -/
def pairLtB (a b : ℕ × ℕ) : Bool :=
  decide (a.1 < b.1) || (decide (a.1 = b.1) && decide (a.2 < b.2))

/-- Lexicographic `>` on `(count, name)` tuples (Python tuple comparison,
second components compared as strings). -/
def tupleGtB (a b : ℕ × String) : Bool :=
  decide (b.1 < a.1) || (decide (a.1 = b.1) && pyStrLt b.2 a.2)

/-! ### Greedy strategy (greedy_strategy.py) -/

def friendsInCount (G : FGraph) (s : String) (cls : List String) : ℕ :=
  (G.neighbors s).countP fun f => decide (f ∈ cls)

def friendsOutCount (G : FGraph) (s : String) (cls : List String) : ℕ :=
  (G.neighbors s).countP fun f => decide (f ∉ cls)

/-- The scored eligible classes of `_find_best_class`: a class is skipped if
placing `student` there violates the student's own not-with entries or the
class holds none of their friends yet. -/
def eligibleScores (G : FGraph) (nw : List (String × List String)) (student : String)
    (classes : List (List String)) (target : ℕ) : List (Frac × ℕ) :=
  classes.enum.filterMap fun p =>
    if violatesNotWith nw student p.2 then none
    else
      let friendsIn := friendsInCount G student p.2
      if friendsIn = 0 then none
      else
        let sizePenalty := Frac.ofNat (2 * ((p.2.length : ℤ) - (target : ℤ)).natAbs)
        let friendBonus := Frac.ofNat (4 * friendsIn)
        let genderBalance := (Frac.sub ⟨1, 2⟩ (maleRatio G p.2)).fabs
        let perfBalance :=
          Frac.add ((Frac.sub (Frac.ofNat 2) (academicScore G p.2)).fabs)
            ((Frac.sub (Frac.ofNat 2) (behavioralScore G p.2)).fabs)
        some (Frac.add (Frac.add (Frac.sub sizePenalty friendBonus) genderBalance)
          perfBalance, p.1)

/-- The fallback scoring of `_find_best_class` when no class is eligible:
`-(number of the student's friends not in the class)` for every class. -/
def fallbackScores (G : FGraph) (student : String) (classes : List (List String)) :
    List (Frac × ℕ) :=
  classes.enum.map fun p => (Frac.ofInt (-(friendsOutCount G student p.2 : ℤ)), p.1)

/-- `GreedyStrategy._find_best_class` (greedy_strategy.py:59-91): take the
eligible scores; if none, the fallback scores; the first class index of
minimal score wins (Python `min` keeps the first minimum). -/
def findBestClass (G : FGraph) (nw : List (String × List String)) (student : String)
    (classes : List (List String)) (numClasses : ℕ) : ℕ :=
  let scores := eligibleScores G nw student classes (G.nodes.length / numClasses)
  let scores := if scores.isEmpty then fallbackScores G student classes else scores
  ((minByKey Frac.blt Prod.fst scores).map Prod.snd).getD 0

/-- Python `set.add`: a no-op when the element is already present. -/
def addToClass (s : String) (cls : List String) : List String :=
  if s ∈ cls then cls else cls ++ [s]

def insertDesc (x : ℕ × String) : List (ℕ × String) → List (ℕ × String)
  | [] => [x]
  | y :: t => if tupleGtB x y then x :: y :: t else y :: insertDesc x t

/-- `sorted(l, reverse=True)` on `(count, name)` tuples (descending). -/
def sortDesc : List (ℕ × String) → List (ℕ × String)
  | [] => []
  | x :: t => insertDesc x (sortDesc t)

def groupPullStep (acc : List String × List String) (f : String) :
    List String × List String :=
  if f ∈ acc.1 then (acc.1.erase f, addToClass f acc.2) else acc

/-- `GreedyStrategy._assign_student_group` (greedy_strategy.py:93-115). -/
def assignStudentGroup (G : FGraph) (nw : List (String × List String)) (student : String)
    (unassigned : List String) (targetClass : List String) :
    List String × List String :=
  if student ∉ unassigned then (unassigned, targetClass)
  else
    let u1 := unassigned.erase student
    let t1 := addToClass student targetClass
    let unassignedFriends := (G.neighbors student).filter fun f =>
      decide (f ∈ u1) && !violatesNotWith nw f t1
    let friendScores := unassignedFriends.map fun f =>
      (friendsInCount G f t1 +
        ((G.neighbors f).countP fun x =>
          decide (x ∈ unassignedFriends) && decide (x ∈ G.neighbors student)), f)
    (((sortDesc friendScores).take 2).map Prod.snd).foldl groupPullStep (u1, t1)

/-- First index of a maximal-length class
(`max(range(len(classes)), key=lambda i: len(classes[i]))`). -/
def idxOfMaxSize (classes : List (List String)) : ℕ :=
  (minByKey (fun a b : ℕ => decide (b < a)) (fun i => (classes.getD i []).length)
    (List.range classes.length)).getD 0

/-- First index of a minimal-length class. -/
def idxOfMinSize (classes : List (List String)) : ℕ :=
  (minByKey (fun a b : ℕ => decide (a < b)) (fun i => (classes.getD i []).length)
    (List.range classes.length)).getD 0

/-- `classes[i].remove(student); classes[j].add(student)`: the move shared by
the balancer and the repair of `_validate_assignment`. -/
def moveRepair (classes : List (List String)) (s : String) (i j : ℕ) :
    List (List String) :=
  let c1 := classes.set i ((classes.getD i []).erase s)
  c1.set j (addToClass s (c1.getD j []))

/-- The `moveable_students` list of `_balance_classes`
(greedy_strategy.py:129-144).  Note there is no not-with check anywhere. -/
def moveableStudents (G : FGraph) (classes : List (List String)) (forceBalance : Bool)
    (maxC minC : ℕ) : List (ℕ × String) :=
  (classes.getD maxC []).filterMap fun student =>
    let friendsInTarget := friendsInCount G student (classes.getD minC [])
    let safeToMove := !((G.neighbors student).any fun friend =>
      decide (friend ∈ classes.getD maxC []) &&
        decide (((G.neighbors friend).countP fun f =>
          decide (f ∈ classes.getD maxC []) && decide (f ≠ student)) = 0))
    if (decide (0 < friendsInTarget) || forceBalance) && (safeToMove || forceBalance)
    then some (friendsInTarget, student) else none

/-- One iteration of `GreedyStrategy._balance_classes` (greedy_strategy.py:122-153);
`none` models `break`. -/
def balanceStep (G : FGraph) (classes : List (List String)) (forceBalance : Bool) :
    Option (List (List String)) :=
  let maxC := idxOfMaxSize classes
  let minC := idxOfMinSize classes
  if (classes.getD maxC []).length ≤ (classes.getD minC []).length + 2 then none
  else
    match minByKey tupleGtB id (moveableStudents G classes forceBalance maxC minC) with
    | none => none
    | some p => some (moveRepair classes p.2 maxC minC)

def balanceGo (G : FGraph) (forceBalance : Bool) : ℕ → List (List String) → List (List String)
  | 0, cs => cs
  | n + 1, cs =>
    match balanceStep G cs forceBalance with
    | none => cs
    | some cs' => balanceGo G forceBalance n cs'

/-- `GreedyStrategy._balance_classes` (greedy_strategy.py:117-153): at most 50
moving iterations. -/
def balanceClasses (G : FGraph) (classes : List (List String)) (forceBalance : Bool) :
    List (List String) :=
  balanceGo G forceBalance 50 classes

/-- First class index containing one of `friends` (the `for class_num,
friends_in_class in friend_classes` scan). -/
def findRepairTarget (classes : List (List String)) (friends : List String) :
    Option ℕ :=
  (List.range classes.length).find? fun j =>
    friends.any fun f => decide (f ∈ classes.getD j [])

/-- Scan of one class in `_validate_assignment`: `some` as soon as a
friendless student is found (the function returns right there in Python). -/
def validateScanClass (G : FGraph) (classes : List (List String)) (i : ℕ) :
    List String → Option (Bool × List (List String))
  | [] => none
  | s :: rest =>
    if friendsInCount G s (classes.getD i []) = 0 then
      match findRepairTarget classes (G.neighbors s) with
      | some j => some (true, moveRepair classes s i j)
      | none => some (false, classes)
    else validateScanClass G classes i rest

def validateLoop (G : FGraph) (classes : List (List String)) :
    List ℕ → Bool × List (List String)
  | [] => (true, classes)
  | i :: rest =>
    match validateScanClass G classes i (classes.getD i []) with
    | some r => r
    | none => validateLoop G classes rest

/-- `GreedyStrategy._validate_assignment` (greedy_strategy.py:161-177): it
returns as soon as the FIRST friendless student is found, after at most one
repair move; the returned classes reflect the (possible) move. -/
def validateAssignment (G : FGraph) (classes : List (List String)) :
    Bool × List (List String) :=
  validateLoop G classes (List.range classes.length)

/-- Key of the seeding `min(unassigned_students, key=...)`:
(number of still-unassigned friends, total friend count). -/
def seedKey (G : FGraph) (u : List String) (s : String) : ℕ × ℕ :=
  ((G.neighbors s).countP (fun f => decide (f ∈ u)), (G.neighbors s).length)

def pickSeed (G : FGraph) (u : List String) : Option String :=
  minByKey pairLtB (seedKey G u) u

def maxSize (classes : List (List String)) : ℕ :=
  match classes.map List.length with
  | [] => 0
  | h :: t => t.foldl max h

def minSize (classes : List (List String)) : ℕ :=
  match classes.map List.length with
  | [] => 0
  | h :: t => t.foldl min h

/-- One iteration of the `while unassigned_students:` loop of
`_greedy_assign_classes` (greedy_strategy.py:42-52). -/
def greedyIter (G : FGraph) (nw : List (String × List String)) (K : ℕ)
    (u : List String) (classes : List (List String)) :
    List String × List (List String) :=
  match pickSeed G u with
  | none => (u, classes)
  | some s =>
    let best := findBestClass G nw s classes K
    let p := assignStudentGroup G nw s u (classes.getD best [])
    let classes' := classes.set best p.2
    (p.1, if minSize classes' + 1 < maxSize classes'
          then balanceClasses G classes' true else classes')

/-- The seeding loop, fuelled; each iteration assigns at least one student,
so `fuel = |unassigned|` always suffices (proved below). -/
def greedyLoop (G : FGraph) (nw : List (String × List String)) (K : ℕ) :
    ℕ → List String → List (List String) → List (List String)
  | 0, _, classes => classes
  | fuel + 1, u, classes =>
    if u.isEmpty then classes
    else
      let p := greedyIter G nw K u classes
      greedyLoop G nw K fuel p.1 p.2

/-- `GreedyStrategy._greedy_assign_classes` (greedy_strategy.py:37-57),
including the final `_validate_assignment` call, whose repair move mutates the
returned classes. -/
def greedyAssignClasses (df : List StudentRow) (K : ℕ) : List (List String) :=
  let G := buildGraphBase df
  let nw := buildNotWith df
  let cls := greedyLoop G nw K G.nodes.length G.nodes (List.replicate K [])
  (validateAssignment G cls).2

/-! ### Input validator (`src/service/validators/input_validator.py`) -/

/-- The stable machine identifiers of `src/server/error_codes.py` that the
validator uses. -/
inductive ErrorCode where
  | EMPTY_STUDENT_DATA
  | MISSING_REQUIRED_FIELDS
  | DUPLICATE_STUDENT_NAMES
  | STUDENT_NO_FRIENDS
  | UNKNOWN_FRIEND
  | ISOLATED_STUDENTS
  | INVALID_CLASS_COUNT
  | INVALID_STUDENT_COUNT
  | TOO_MANY_CLASSES
  | CLASS_SIZE_TOO_SMALL
deriving DecidableEq

/-- An `InputValidationError`: an error code together with its parameter bag. -/
inductive VError where
  | emptyStudentData
  | studentNoFriends (studentName : String)
  | unknownFriend (studentName friendName : String)
  | isolatedStudents (students : List String)
  | invalidClassCount (classCount : ℤ)
  | invalidStudentCount (studentCount : ℤ)
  | tooManyClasses (classCount studentCount : ℤ)
  | classSizeTooSmall (minSize classCount studentCount : ℤ)
deriving DecidableEq

def VError.code : VError → ErrorCode
  | .emptyStudentData => .EMPTY_STUDENT_DATA
  | .studentNoFriends _ => .STUDENT_NO_FRIENDS
  | .unknownFriend _ _ => .UNKNOWN_FRIEND
  | .isolatedStudents _ => .ISOLATED_STUDENTS
  | .invalidClassCount _ => .INVALID_CLASS_COUNT
  | .invalidStudentCount _ => .INVALID_STUDENT_COUNT
  | .tooManyClasses _ _ => .TOO_MANY_CLASSES
  | .classSizeTooSmall _ _ _ => .CLASS_SIZE_TOO_SMALL

/-- The error code of a validator run, `none` when it succeeded. -/
def resultCode (r : Except VError Unit) : Option ErrorCode :=
  match r with
  | .ok _ => none
  | .error e => some e.code

/-- The inner `for i in range(1, 5)` loop of `_validate_friendship_network`
(input_validator.py:95-106): scan the friend cells in order; the FIRST
non-null, non-empty cell naming a student absent from the table raises
`UNKNOWN_FRIEND` on the spot; valid cells add an edge and set `has_friends`. -/
def scanFriendCells (names : List String) (G : FGraph) (rowName : String) :
    List (Option String) → Bool → Except VError (FGraph × Bool)
  | [], has => .ok (G, has)
  | none :: rest, has => scanFriendCells names G rowName rest has
  | some v :: rest, has =>
    if v ≠ "" then
      if v ∉ names then .error (.unknownFriend rowName v)
      else scanFriendCells names (G.addEdge rowName v) rowName rest true
    else scanFriendCells names G rowName rest has

/-- The outer row loop of `_validate_friendship_network`
(input_validator.py:91-113): per row, the friend-cell scan runs first and the
`STUDENT_NO_FRIENDS` check for that row runs after it. -/
def validateRowsGo (names : List String) (G : FGraph) :
    List StudentRow → Except VError FGraph
  | [] => .ok G
  | r :: rs =>
    match scanFriendCells names G r.name r.friends false with
    | .error e => .error e
    | .ok (G', has) =>
      if has then validateRowsGo names G' rs
      else .error (.studentNoFriends r.name)

/-- `list(nx.isolates(G))`: nodes with no incident edge. -/
def isolatedNodes (G : FGraph) : List String :=
  G.nodes.filter fun n => (G.neighbors n).isEmpty

/-- `InputValidator._validate_friendship_network` (input_validator.py:76-122). -/
def validateFriendshipNetwork (df : List StudentRow) : Except VError Unit :=
  let names := df.map (·.name)
  let G0 := df.foldl (fun g r => g.addNode r.name ("", "", "")) FGraph.empty
  match validateRowsGo names G0 df with
  | .error e => .error e
  | .ok G =>
    if (isolatedNodes G).isEmpty then .ok ()
    else .error (.isolatedStudents (isolatedNodes G))

/-- A row "lists no non-empty friend": every friend cell is null or `""`. -/
def rowFriendless (r : StudentRow) : Bool :=
  r.friends.all fun f =>
    match f with
    | none => true
    | some v => v = ""

/-- Python `//` on `int` is floor division. -/
def pyFloorDiv (a b : ℤ) : ℤ := Int.fdiv a b

/-- `InputValidator.validate_assignment_parameters` (input_validator.py:124-159). -/
def validateAssignmentParameters (numStudents numClasses : ℤ) :
    Except VError Unit :=
  if numClasses ≤ 0 then .error (.invalidClassCount numClasses)
  else if numStudents ≤ 0 then .error (.invalidStudentCount numStudents)
  else if numClasses > numStudents then .error (.tooManyClasses numClasses numStudents)
  else
    let minClassSize := pyFloorDiv numStudents numClasses
    if minClassSize < 1 then
      .error (.classSizeTooSmall minClassSize numClasses numStudents)
    else .ok ()

/-! ### Solution evaluator overall score
(`src/service/evaluators/solution_evaluator.py:191-225`) -/

/-- The fields of the metrics dict that `_calculate_overall_score` reads: the
four hard-violation lists of `_check_hard_constraints`, `size_variance` of
`_evaluate_size_balance` (max size − min size), the three average deviations,
and the friendship satisfaction rate.  All are always present on the record
built by `evaluate_solution`, so the `if key in metrics` guards of the soft
penalties always hold and are not modelled. -/
structure MetricsRec where
  friendlessEntries : List (String × ℕ)
  notWithEntries : List (String × List String × ℕ)
  unassignedEntries : List String
  multiplyAssignedEntries : List String
  sizeVariance : ℕ
  avgGenderDeviation : ℚ
  avgAcademicDeviation : ℚ
  avgBehavioralDeviation : ℚ
  satisfactionRate : ℚ

/-- `SolutionEvaluator._calculate_overall_score` (solution_evaluator.py:191-225),
with the Python truthiness guards `if metrics['…']:` on the four violation
lists kept as emptiness tests. -/
def calculateOverallScore (m : MetricsRec) : ℚ :=
  let score : ℚ := 100
  let score := if m.friendlessEntries ≠ [] then
    score - m.friendlessEntries.length * 20 else score
  let score := if m.notWithEntries ≠ [] then
    score - m.notWithEntries.length * 25 else score
  let score := if m.unassignedEntries ≠ [] then
    score - m.unassignedEntries.length * 30 else score
  let score := if m.multiplyAssignedEntries ≠ [] then
    score - m.multiplyAssignedEntries.length * 30 else score
  let score := score - m.sizeVariance * 2
  let score := score - m.avgGenderDeviation * 10
  let score := score - m.avgAcademicDeviation * 5
  let score := score - m.avgBehavioralDeviation * 5
  let score := score + m.satisfactionRate * 10
  max 0 (min 100 score)

/-! ### CP-SAT strategy metadata (`src/service/strategies/cp_sat_strategy.py`) -/

/-- A value stored in a strategy metadata dict. -/
inductive MetaVal where
  | str (s : String)
  | int (n : ℤ)
  | rat (q : ℚ)
  | boolean (b : Bool)
deriving DecidableEq

/-- The `solver_stats` dict of `_solve_with_simple_cpsat`
(cp_sat_strategy.py:160-166). -/
structure SolverStats where
  status : String
  solveTime : ℚ
  objectiveValue : ℚ
  numVariables : ℕ
  numConstraints : ℕ

/-- The metadata dict built by `CPSATStrategy.assign_classes` on success
(cp_sat_strategy.py:44-52).  Of the solver stats only `status` and
`solve_time` are copied in, plus the configured timeout. -/
def cpSatMetadata (executionTime : ℚ) (stats : SolverStats)
    (numClasses numStudents : ℕ) (timeoutSeconds : ℤ) : List (String × MetaVal) :=
  [("algorithm", .str "cp_sat"),
   ("execution_time", .rat executionTime),
   ("solver_status", .str stats.status),
   ("solver_time", .rat stats.solveTime),
   ("num_classes", .int numClasses),
   ("num_students", .int numStudents),
   ("timeout_used", .int timeoutSeconds)]

/-- The error text raised by `CPSATStrategy.assign_classes` on any failure
(cp_sat_strategy.py:56-58); `elapsed` renders the measured seconds. -/
def cpSatFailureText (elapsed : String) (cause : String) : String :=
  "CP-SAT assignment failed after " ++ elapsed ++ "s: " ++ cause

/-- The metadata dict built by `GreedyStrategy.assign_classes`
(greedy_strategy.py:28-33). -/
def greedyMetadata (executionTime : ℚ) (numClasses numStudents : ℕ) :
    List (String × MetaVal) :=
  [("algorithm", .str "greedy"),
   ("execution_time", .rat executionTime),
   ("num_classes", .int numClasses),
   ("num_students", .int numStudents)]

/-! ### Assignment coordinator fallback -/

/-- Modelled from the spec: the Assignment Coordinator of §4.6 (the
`ClassAssignmentService` facade with strategy selection that the tests and the
server call) is not among the sources; only the legacy facade and the strategy
classes are.  Per the spec, on a strategy failure with `strategy = cp_sat` and
`fallback_enabled = true`, a fresh greedy strategy runs, and the result's
metadata is marked with
`{fallback_used: true, original_strategy: "cp_sat", fallback_reason: <error text>}`;
otherwise the failure propagates. -/
def runWithFallback (strategyName : String) (fallbackEnabled : Bool)
    (attempt : Except String (List (List String) × List (String × MetaVal)))
    (greedyClasses : List (List String)) (greedyMeta : List (String × MetaVal)) :
    Except String (List (List String) × List (String × MetaVal)) :=
  match attempt with
  | .ok r => .ok r
  | .error e =>
    if strategyName = "cp_sat" && fallbackEnabled then
      .ok (greedyClasses,
        assocSet "fallback_reason" (.str e)
          (assocSet "original_strategy" (.str "cp_sat")
            (assocSet "fallback_used" (.boolean true) greedyMeta)))
    else .error e

/-- Every friend cell that is non-blank after `strip()` names a student of the
table (what passing validation guarantees to the graph builders). -/
def friendCellsResolvable (df : List StudentRow) : Bool :=
  df.all fun r => r.friends.all fun f =>
    match f with
    | none => true
    | some v => decide (pyStrip v = "") || decide (v ∈ df.map StudentRow.name)

/-- Every non-empty friend cell names a student of the table (so the
`UNKNOWN_FRIEND` check can never fire). -/
def friendCellsKnown (df : List StudentRow) : Bool :=
  df.all fun r => r.friends.all fun f =>
    match f with
    | none => true
    | some v => decide (v = "") || decide (v ∈ df.map StudentRow.name)

/-! ### Concrete student tables used to settle the claims -/

/-- Two students, mutual friends, each naming the other as not-with
(the spec's scenario S5). -/
def exTableMutual : List StudentRow :=
  [⟨"Alice", "FEMALE", "HIGH", "MEDIUM", [some "Bob", some "", some "", some ""],
    some "Bob"⟩,
   ⟨"Bob", "MALE", "MEDIUM", "HIGH", [some "Alice", some "", some "", some ""],
    some "Alice"⟩]

/-- Four students in two mutual-friend pairs, each pair mutually not-with. -/
def exTablePairs : List StudentRow :=
  [⟨"A", "MALE", "HIGH", "MEDIUM", [some "B", some "", some "", some ""], some "B"⟩,
   ⟨"B", "FEMALE", "MEDIUM", "HIGH", [some "A", some "", some "", some ""], some "A"⟩,
   ⟨"C", "MALE", "LOW", "MEDIUM", [some "D", some "", some "", some ""], some "D"⟩,
   ⟨"D", "FEMALE", "HIGH", "LOW", [some "C", some "", some "", some ""], some "C"⟩]

/-- Two valid students where Alice's second friend cell holds the empty
string (a non-null cell, as a pandas column of strings yields). -/
def exTableBlankCell : List StudentRow :=
  [⟨"Alice", "FEMALE", "HIGH", "MEDIUM", [some "Bob", some "", none, none], none⟩,
   ⟨"Bob", "MALE", "MEDIUM", "HIGH", [some "Alice", none, none, none], none⟩]

/-- Row 0 lists an unknown friend; row 1 lists no non-empty friend. -/
def exTableUnknownThenNoFriends : List StudentRow :=
  [⟨"Alice", "FEMALE", "HIGH", "MEDIUM", [some "Zork", none, none, none], none⟩,
   ⟨"Bob", "MALE", "MEDIUM", "HIGH", [some "", none, none, none], none⟩]

/-- Row 0 is fine, row 1 lists no non-empty friend, and no row lists an
unknown friend. -/
def exTableNoFriendsOnly : List StudentRow :=
  [⟨"Alice", "FEMALE", "HIGH", "MEDIUM", [some "Bob", none, none, none], none⟩,
   ⟨"Bob", "MALE", "MEDIUM", "HIGH", [some "", none, none, none], none⟩]

/-- Six students with two friendship clusters and one not-with pair, where the
greedy eligible branch fires. -/
def exTableSix : List StudentRow :=
  [⟨"Alice", "FEMALE", "HIGH", "MEDIUM",
    [some "Bob", some "Charlie", some "", some ""], some ""⟩,
   ⟨"Bob", "MALE", "MEDIUM", "HIGH",
    [some "Alice", some "David", some "", some ""], some ""⟩,
   ⟨"Charlie", "MALE", "LOW", "MEDIUM",
    [some "David", some "Alice", some "", some ""], some "Eve"⟩,
   ⟨"David", "MALE", "HIGH", "LOW",
    [some "Charlie", some "Bob", some "", some ""], some ""⟩,
   ⟨"Eve", "FEMALE", "MEDIUM", "HIGH",
    [some "Frank", some "", some "", some ""], some "Charlie"⟩,
   ⟨"Frank", "MALE", "LOW", "MEDIUM",
    [some "Eve", some "", some "", some ""], some ""⟩]

/-! ### Helper lemmas: `minByKey`, class pools as multisets -/

theorem minByKeyAux_mem (lt : κ → κ → Bool) (key : α → κ) (b : α) (l : List α) :
    minByKeyAux lt key b l = b ∨ minByKeyAux lt key b l ∈ l := by
  induction l generalizing b with
  | nil => left; rfl
  | cons x t ih =>
    simp only [minByKeyAux]
    rcases ih (if lt (key x) (key b) then x else b) with h | h
    · rw [h]
      split
      · right; exact List.mem_cons_self x t
      · left; rfl
    · right; exact List.mem_cons_of_mem _ h

theorem minByKey_mem {lt : κ → κ → Bool} {key : α → κ} {l : List α} {x : α}
    (h : minByKey lt key l = some x) : x ∈ l := by
  cases l with
  | nil => simp [minByKey] at h
  | cons a t =>
    simp only [minByKey, Option.some.injEq] at h
    rcases minByKeyAux_mem lt key a t with h' | h'
    · rw [← h, h']; exact List.mem_cons_self a t
    · rw [← h]; exact List.mem_cons_of_mem _ h'

theorem minByKey_isSome {lt : κ → κ → Bool} {key : α → κ} {a : α} {l : List α} :
    ∃ x, minByKey lt key (a :: l) = some x :=
  ⟨_, rfl⟩

/-- The multiset of all students placed in some class. -/
def classPool (cs : List (List String)) : Multiset String :=
  (cs.map fun c => (c : Multiset String)).sum

theorem coe_erase_add {l : List String} {a : String} (h : a ∈ l) :
    (l.erase a : Multiset String) + {a} = ↑l := by
  have hp : (l : Multiset String) = ↑(a :: l.erase a) :=
    Multiset.coe_eq_coe.mpr (List.perm_cons_erase h)
  rw [hp, ← Multiset.cons_coe, add_comm, Multiset.singleton_add]

theorem coe_addToClass {cls : List String} {a : String} (h : a ∉ cls) :
    (addToClass a cls : Multiset String) = ↑cls + {a} := by
  simp only [addToClass, if_neg h]
  rfl

theorem classPool_nil : classPool [] = 0 := rfl

theorem classPool_cons (c : List String) (cs : List (List String)) :
    classPool (c :: cs) = ↑c + classPool cs := by
  simp [classPool]

theorem classPool_set {cs : List (List String)} {i : ℕ} (x : List String)
    (h : i < cs.length) :
    classPool (cs.set i x) + ↑(cs.getD i []) = classPool cs + ↑x := by
  induction cs generalizing i with
  | nil => simp at h
  | cons c t ih =>
    cases i with
    | zero =>
      simp only [List.set, List.getD_cons_zero, classPool_cons]
      abel
    | succ n =>
      simp only [List.set, List.getD_cons_succ, classPool_cons]
      have := ih (i := n) (by simpa using h)
      calc ↑c + classPool (t.set n x) + ↑(t.getD n []) =
          ↑c + (classPool (t.set n x) + ↑(t.getD n [])) := by abel
        _ = ↑c + (classPool t + ↑x) := by rw [this]
        _ = ↑c + classPool t + ↑x := by abel

theorem getD_le_classPool (cs : List (List String)) (i : ℕ) :
    (↑(cs.getD i []) : Multiset String) ≤ classPool cs := by
  induction cs generalizing i with
  | nil => simp [classPool_nil]
  | cons c t ih =>
    cases i with
    | zero =>
      simp only [List.getD_cons_zero, classPool_cons]
      exact Multiset.le_add_right _ _
    | succ n =>
      simp only [List.getD_cons_succ, classPool_cons]
      exact (ih n).trans (Multiset.le_add_left _ _)

theorem mem_classPool {cs : List (List String)} {i : ℕ} {x : String}
    (h : x ∈ cs.getD i []) : x ∈ classPool cs := by
  have := getD_le_classPool cs i
  exact Multiset.mem_of_le this (by simpa using h)

theorem nodup_getD_disjoint {cs : List (List String)} (hn : (classPool cs).Nodup)
    {i j : ℕ} (hij : i ≠ j) {x : String} (hx : x ∈ cs.getD i []) :
    x ∉ cs.getD j [] := by
  induction cs generalizing i j with
  | nil => cases i <;> simp at hx
  | cons c t ih =>
    rw [classPool_cons, Multiset.nodup_add] at hn
    obtain ⟨hc, ht, hd⟩ := hn
    cases i with
    | zero =>
      cases j with
      | zero => exact absurd rfl hij
      | succ m =>
        simp only [List.getD_cons_zero] at hx
        simp only [List.getD_cons_succ]
        intro hmem
        exact Multiset.disjoint_left.mp hd (by simpa using hx) (mem_classPool hmem)
    | succ n =>
      cases j with
      | zero =>
        simp only [List.getD_cons_succ] at hx
        simp only [List.getD_cons_zero]
        intro hmem
        exact Multiset.disjoint_left.mp hd (by simpa using hmem) (mem_classPool hx)
      | succ m =>
        simp only [List.getD_cons_succ] at hx ⊢
        exact ih ht (fun h => hij (by rw [h])) hx

theorem getD_set_ne {cs : List (List String)} {i j : ℕ} (h : i ≠ j) (x : List String) :
    (cs.set i x).getD j [] = cs.getD j [] := by
  induction cs generalizing i j with
  | nil => simp
  | cons c t ih =>
    cases i with
    | zero =>
      cases j with
      | zero => exact absurd rfl h
      | succ m => simp
    | succ n =>
      cases j with
      | zero => simp
      | succ m =>
        simp only [List.set, List.getD_cons_succ]
        exact ih (i := n) (j := m) (fun hh => h (by omega))

theorem getD_nonempty_lt {cs : List (List String)} {i : ℕ} {x : String}
    (h : x ∈ cs.getD i []) : i < cs.length := by
  by_contra hge
  rw [List.getD_eq_default] at h
  · simp at h
  · omega

/-! ### Preservation lemmas: every movement step permutes the pool of students -/

theorem groupPullStep_pool (acc : List String × List String) (f : String)
    (hn : ((acc.1 : Multiset String) + ↑acc.2).Nodup) :
    ((groupPullStep acc f).1 : Multiset String) + ↑(groupPullStep acc f).2 =
      ↑acc.1 + ↑acc.2 := by
  unfold groupPullStep
  split
  · rename_i hmem
    have hf2 : f ∉ acc.2 := by
      intro h2
      rw [Multiset.nodup_add] at hn
      exact Multiset.disjoint_left.mp hn.2.2 (by simpa using hmem) (by simpa using h2)
    simp only
    rw [coe_addToClass hf2]
    calc (↑(acc.1.erase f) + (↑acc.2 + {f}) : Multiset String)
        = ↑(acc.1.erase f) + {f} + ↑acc.2 := by abel
      _ = ↑acc.1 + ↑acc.2 := by rw [coe_erase_add hmem]
  · rfl

theorem groupPullStep_fst_length (acc : List String × List String) (f : String) :
    (groupPullStep acc f).1.length ≤ acc.1.length := by
  unfold groupPullStep
  split
  · rename_i hmem
    simp only
    rw [List.length_erase_of_mem hmem]
    omega
  · exact le_refl _

theorem foldl_groupPullStep_pool (l : List String) (acc : List String × List String)
    (hn : ((acc.1 : Multiset String) + ↑acc.2).Nodup) :
    ((l.foldl groupPullStep acc).1 : Multiset String) + ↑(l.foldl groupPullStep acc).2 =
      ↑acc.1 + ↑acc.2 := by
  induction l generalizing acc with
  | nil => rfl
  | cons f t ih =>
    simp only [List.foldl_cons]
    have hpres := groupPullStep_pool acc f hn
    rw [ih _ (by rw [hpres]; exact hn), hpres]

theorem foldl_groupPullStep_fst_length (l : List String) (acc : List String × List String) :
    (l.foldl groupPullStep acc).1.length ≤ acc.1.length := by
  induction l generalizing acc with
  | nil => exact le_refl _
  | cons f t ih =>
    simp only [List.foldl_cons]
    exact (ih _).trans (groupPullStep_fst_length acc f)

theorem assignStudentGroup_pool (G : FGraph) (nw : List (String × List String))
    (s : String) (u t : List String)
    (hn : ((u : Multiset String) + ↑t).Nodup) :
    ((assignStudentGroup G nw s u t).1 : Multiset String) +
      ↑(assignStudentGroup G nw s u t).2 = ↑u + ↑t := by
  unfold assignStudentGroup
  split
  · rfl
  · rename_i hmem
    rw [not_not] at hmem
    have hst : s ∉ t := by
      intro h2
      rw [Multiset.nodup_add] at hn
      exact Multiset.disjoint_left.mp hn.2.2 (by simpa using hmem) (by simpa using h2)
    simp only
    have hbase : ((u.erase s : List String) : Multiset String) + ↑(addToClass s t) =
        ↑u + ↑t := by
      rw [coe_addToClass hst]
      calc (↑(u.erase s) + (↑t + {s}) : Multiset String)
          = ↑(u.erase s) + {s} + ↑t := by abel
        _ = ↑u + ↑t := by rw [coe_erase_add hmem]
    rw [foldl_groupPullStep_pool _ _ (by rw [hbase]; exact hn), hbase]

theorem assignStudentGroup_fst_length (G : FGraph) (nw : List (String × List String))
    (s : String) (u t : List String) (hmem : s ∈ u) :
    (assignStudentGroup G nw s u t).1.length < u.length := by
  unfold assignStudentGroup
  rw [if_neg (by simpa using hmem)]
  simp only
  refine lt_of_le_of_lt (foldl_groupPullStep_fst_length _ _) ?_
  rw [List.length_erase_of_mem hmem]
  have : 0 < u.length := List.length_pos.mpr (by rintro rfl; simp at hmem)
  omega

theorem moveRepair_pool {cs : List (List String)} {s : String} {i j : ℕ}
    (hij : i ≠ j) (hs : s ∈ cs.getD i []) (hj : j < cs.length)
    (hn : (classPool cs).Nodup) :
    classPool (moveRepair cs s i j) = classPool cs ∧
      (moveRepair cs s i j).length = cs.length := by
  have hi : i < cs.length := getD_nonempty_lt hs
  have hsj : s ∉ cs.getD j [] := nodup_getD_disjoint hn hij hs
  unfold moveRepair
  simp only
  constructor
  · have h1 : classPool (cs.set i ((cs.getD i []).erase s)) + ↑(cs.getD i []) =
        classPool cs + ↑((cs.getD i []).erase s) := classPool_set _ hi
    have hstar : classPool (cs.set i ((cs.getD i []).erase s)) + {s} = classPool cs := by
      have h2 : classPool (cs.set i ((cs.getD i []).erase s)) +
          (↑((cs.getD i []).erase s) + {s}) =
          classPool cs + ↑((cs.getD i []).erase s) := by
        rw [coe_erase_add hs]; exact h1
      have h3 : classPool (cs.set i ((cs.getD i []).erase s)) + {s} +
          ↑((cs.getD i []).erase s) =
          classPool cs + ↑((cs.getD i []).erase s) := by
        rw [← h2]; abel
      exact add_right_cancel h3
    have hgj : (cs.set i ((cs.getD i []).erase s)).getD j [] = cs.getD j [] :=
      getD_set_ne hij _
    have hj' : j < (cs.set i ((cs.getD i []).erase s)).length := by
      rw [List.length_set]; exact hj
    rw [hgj]
    have h4 := @classPool_set (cs.set i ((cs.getD i []).erase s)) j
      (addToClass s (cs.getD j [])) hj'
    rw [hgj, coe_addToClass hsj] at h4
    have h5 : classPool ((cs.set i ((cs.getD i []).erase s)).set j
        (addToClass s (cs.getD j []))) + ↑(cs.getD j []) =
        classPool (cs.set i ((cs.getD i []).erase s)) + {s} + ↑(cs.getD j []) := by
      rw [h4]; abel
    have h6 := add_right_cancel h5
    rw [h6, hstar]
  · rw [List.length_set, List.length_set]

theorem minByKey_range_getD_lt {lt : κ → κ → Bool} {key : ℕ → κ} {n : ℕ} (h : 0 < n) :
    (minByKey lt key (List.range n)).getD 0 < n := by
  rcases hr : minByKey lt key (List.range n) with _ | x
  · cases hn : List.range n with
    | nil => rw [List.range_eq_nil] at hn; omega
    | cons a t => rw [hn] at hr; simp [minByKey] at hr
  · simpa using List.mem_range.mp (minByKey_mem hr)

theorem idxOfMaxSize_lt {cs : List (List String)} (h : 0 < cs.length) :
    idxOfMaxSize cs < cs.length := minByKey_range_getD_lt h

theorem idxOfMinSize_lt {cs : List (List String)} (h : 0 < cs.length) :
    idxOfMinSize cs < cs.length := minByKey_range_getD_lt h

theorem moveableStudents_mem {G : FGraph} {cs : List (List String)} {fb : Bool}
    {maxC minC : ℕ} {p : ℕ × String} (h : p ∈ moveableStudents G cs fb maxC minC) :
    p.2 ∈ cs.getD maxC [] := by
  unfold moveableStudents at h
  rw [List.mem_filterMap] at h
  obtain ⟨a, ha, hfa⟩ := h
  simp only at hfa
  split at hfa
  · simp only [Option.some.injEq] at hfa
    rw [← hfa]
    exact ha
  · exact absurd hfa (by simp)

theorem balanceStep_pool {G : FGraph} {cs : List (List String)} {fb : Bool}
    {cs' : List (List String)} (hn : (classPool cs).Nodup)
    (h : balanceStep G cs fb = some cs') :
    classPool cs' = classPool cs ∧ cs'.length = cs.length := by
  unfold balanceStep at h
  simp only at h
  split at h
  · exact absurd h (by simp)
  · rename_i hguard
    rcases hmk : minByKey tupleGtB id
        (moveableStudents G cs fb (idxOfMaxSize cs) (idxOfMinSize cs)) with _ | p
    · rw [hmk] at h; exact absurd h (by simp)
    · rw [hmk] at h
      simp only [Option.some.injEq] at h
      subst h
      have hp2 : p.2 ∈ cs.getD (idxOfMaxSize cs) [] :=
        moveableStudents_mem (minByKey_mem hmk)
      have hmaxlt : idxOfMaxSize cs < cs.length := getD_nonempty_lt hp2
      have hpos : 0 < cs.length := lt_of_le_of_lt (Nat.zero_le _) hmaxlt
      have hminlt : idxOfMinSize cs < cs.length := idxOfMinSize_lt hpos
      have hne : idxOfMaxSize cs ≠ idxOfMinSize cs := by
        intro he
        rw [he] at hguard
        omega
      exact moveRepair_pool hne hp2 hminlt hn

theorem balanceGo_pool (G : FGraph) (fb : Bool) (fuel : ℕ) (cs : List (List String))
    (hn : (classPool cs).Nodup) :
    classPool (balanceGo G fb fuel cs) = classPool cs ∧
      (balanceGo G fb fuel cs).length = cs.length := by
  induction fuel generalizing cs with
  | zero => exact ⟨rfl, rfl⟩
  | succ n ih =>
    simp only [balanceGo]
    rcases hbs : balanceStep G cs fb with _ | cs'
    · exact ⟨rfl, rfl⟩
    · obtain ⟨hp, hl⟩ := balanceStep_pool hn hbs
      obtain ⟨hp2, hl2⟩ := ih cs' (by rw [hp]; exact hn)
      exact ⟨by rw [hp2, hp], by rw [hl2, hl]⟩

theorem validateScanClass_pool {G : FGraph} {cs : List (List String)} {i : ℕ}
    {l : List String} (hsub : ∀ x ∈ l, x ∈ cs.getD i [])
    (hn : (classPool cs).Nodup) {r : Bool × List (List String)}
    (h : validateScanClass G cs i l = some r) :
    classPool r.2 = classPool cs ∧ r.2.length = cs.length := by
  induction l with
  | nil => simp [validateScanClass] at h
  | cons s rest ih =>
    simp only [validateScanClass] at h
    split at h
    · rename_i hfl
      rcases hft : findRepairTarget cs (G.neighbors s) with _ | j
      · rw [hft] at h
        simp only [Option.some.injEq] at h
        subst h
        exact ⟨rfl, rfl⟩
      · rw [hft] at h
        simp only [Option.some.injEq] at h
        subst h
        have hs : s ∈ cs.getD i [] := hsub s (List.mem_cons_self s rest)
        have hjlt : j < cs.length :=
          List.mem_range.mp (List.mem_of_find?_eq_some hft)
        have hjp := List.find?_some hft
        rw [List.any_eq_true] at hjp
        obtain ⟨f, hfmem, hfin⟩ := hjp
        rw [decide_eq_true_eq] at hfin
        have hij : i ≠ j := by
          intro he
          subst he
          unfold friendsInCount at hfl
          exact absurd (by simpa using hfin) (by simpa using List.countP_eq_zero.mp hfl f hfmem)
        exact moveRepair_pool hij hs hjlt hn
    · exact ih (fun x hx => hsub x (List.mem_cons_of_mem _ hx)) h

theorem validateLoop_pool {G : FGraph} {cs : List (List String)}
    (hn : (classPool cs).Nodup) (idxs : List ℕ) :
    classPool (validateLoop G cs idxs).2 = classPool cs ∧
      (validateLoop G cs idxs).2.length = cs.length := by
  induction idxs with
  | nil => exact ⟨rfl, rfl⟩
  | cons i rest ih =>
    simp only [validateLoop]
    rcases hsc : validateScanClass G cs i (cs.getD i []) with _ | r
    · exact ih
    · exact validateScanClass_pool (fun x hx => hx) hn hsc

theorem validateAssignment_pool {G : FGraph} {cs : List (List String)}
    (hn : (classPool cs).Nodup) :
    classPool (validateAssignment G cs).2 = classPool cs ∧
      (validateAssignment G cs).2.length = cs.length :=
  validateLoop_pool hn _

theorem eligibleScores_mem_lt {G : FGraph} {nw : List (String × List String)}
    {s : String} {classes : List (List String)} {target : ℕ} {p : Frac × ℕ}
    (h : p ∈ eligibleScores G nw s classes target) : p.2 < classes.length := by
  unfold eligibleScores at h
  rw [List.mem_filterMap] at h
  obtain ⟨q, hq, hfq⟩ := h
  simp only at hfq
  split at hfq
  · exact absurd hfq (by simp)
  · split at hfq
    · exact absurd hfq (by simp)
    · simp only [Option.some.injEq] at hfq
      rw [← hfq]
      exact List.fst_lt_of_mem_enum hq

theorem fallbackScores_mem_lt {G : FGraph} {s : String}
    {classes : List (List String)} {p : Frac × ℕ}
    (h : p ∈ fallbackScores G s classes) : p.2 < classes.length := by
  unfold fallbackScores at h
  rw [List.mem_map] at h
  obtain ⟨q, hq, hfq⟩ := h
  rw [← hfq]
  exact List.fst_lt_of_mem_enum hq

theorem findBestClass_lt (G : FGraph) (nw : List (String × List String)) (s : String)
    (classes : List (List String)) (K : ℕ) (h : 0 < classes.length) :
    findBestClass G nw s classes K < classes.length := by
  unfold findBestClass
  simp only
  split
  · rcases hm : minByKey Frac.blt Prod.fst (fallbackScores G s classes) with _ | x
    · exfalso
      have hlen : (fallbackScores G s classes).length = classes.length := by
        simp [fallbackScores]
      cases hfb : fallbackScores G s classes with
      | nil => rw [hfb] at hlen; simp at hlen; omega
      | cons a t => rw [hfb] at hm; simp [minByKey] at hm
    · simpa using fallbackScores_mem_lt (minByKey_mem hm)
  · rename_i hne
    rcases hm : minByKey Frac.blt Prod.fst
        (eligibleScores G nw s classes (G.nodes.length / K)) with _ | x
    · exfalso
      cases hfb : eligibleScores G nw s classes (G.nodes.length / K) with
      | nil => rw [hfb] at hne; simp at hne
      | cons a t => rw [hfb] at hm; simp [minByKey] at hm
    · simpa using eligibleScores_mem_lt (minByKey_mem hm)

theorem pickSeed_mem {G : FGraph} {u : List String} {s : String}
    (h : pickSeed G u = some s) : s ∈ u :=
  minByKey_mem h

theorem greedyIter_inv (G : FGraph) (nw : List (String × List String)) (K : ℕ)
    (u : List String) (cs : List (List String))
    (hn : ((u : Multiset String) + classPool cs).Nodup) (hcs : 0 < cs.length)
    (hu : u ≠ []) :
    ((greedyIter G nw K u cs).1 : Multiset String) +
        classPool (greedyIter G nw K u cs).2 = ↑u + classPool cs ∧
      (greedyIter G nw K u cs).2.length = cs.length ∧
      (greedyIter G nw K u cs).1.length < u.length := by
  rcases hps : pickSeed G u with _ | s
  · exfalso
    rcases u with _ | ⟨a, t⟩
    · exact hu rfl
    · simp [pickSeed, minByKey] at hps
  · have hsmem : s ∈ u := pickSeed_mem hps
    unfold greedyIter
    rw [hps]
    simp only
    set best := findBestClass G nw s cs K with hbestdef
    have hbest : best < cs.length := findBestClass_lt G nw s cs K hcs
    set t0 := cs.getD best [] with ht0
    have hnut : ((u : Multiset String) + ↑t0).Nodup :=
      Multiset.nodup_of_le (add_le_add_left (getD_le_classPool cs best) _) hn
    set asg := assignStudentGroup G nw s u t0 with hasg
    have hpool1 : (asg.1 : Multiset String) + ↑asg.2 = ↑u + ↑t0 :=
      assignStudentGroup_pool G nw s u t0 hnut
    have hlen1 : asg.1.length < u.length :=
      assignStudentGroup_fst_length G nw s u t0 hsmem
    have hset := @classPool_set cs best asg.2 hbest
    have hpool2 : (asg.1 : Multiset String) + classPool (cs.set best asg.2) =
        ↑u + classPool cs := by
      have hx : (asg.1 : Multiset String) + classPool (cs.set best asg.2) + ↑t0 =
          (↑u + classPool cs) + ↑t0 := by
        calc (asg.1 : Multiset String) + classPool (cs.set best asg.2) + ↑t0
            = ↑asg.1 + (classPool (cs.set best asg.2) + ↑(cs.getD best [])) := by
              rw [← ht0]; abel
          _ = ↑asg.1 + (classPool cs + ↑asg.2) := by rw [hset]
          _ = (↑asg.1 + ↑asg.2) + classPool cs := by abel
          _ = (↑u + ↑t0) + classPool cs := by rw [hpool1]
          _ = (↑u + classPool cs) + ↑t0 := by abel
      exact add_right_cancel hx
    have hlenset : (cs.set best asg.2).length = cs.length := List.length_set ..
    have hncs1 : (classPool (cs.set best asg.2)).Nodup := by
      have hsum : ((asg.1 : Multiset String) + classPool (cs.set best asg.2)).Nodup := by
        rw [hpool2]; exact hn
      exact Multiset.nodup_of_le (Multiset.le_add_left _ _) hsum
    split
    · obtain ⟨hbp, hbl⟩ := balanceGo_pool G true 50 (cs.set best asg.2) hncs1
      refine ⟨?_, ?_, hlen1⟩
      · rw [balanceClasses, hbp, hpool2]
      · rw [balanceClasses, hbl, hlenset]
    · exact ⟨hpool2, hlenset, hlen1⟩

theorem greedyLoop_inv (G : FGraph) (nw : List (String × List String)) (K : ℕ)
    (fuel : ℕ) (u : List String) (cs : List (List String))
    (hfuel : u.length ≤ fuel)
    (hn : ((u : Multiset String) + classPool cs).Nodup) (hcs : 0 < cs.length) :
    classPool (greedyLoop G nw K fuel u cs) = ↑u + classPool cs ∧
      (greedyLoop G nw K fuel u cs).length = cs.length := by
  induction fuel generalizing u cs with
  | zero =>
    have : u = [] := List.length_eq_zero.mp (by omega)
    subst this
    simp only [greedyLoop]
    constructor
    · rw [Multiset.coe_nil, zero_add]
    · trivial
  | succ n ih =>
    simp only [greedyLoop]
    split
    · rename_i hemp
      rw [List.isEmpty_iff] at hemp
      subst hemp
      constructor
      · rw [Multiset.coe_nil, zero_add]
      · trivial
    · rename_i hne
      rw [List.isEmpty_iff] at hne
      obtain ⟨hp, hl, hlen⟩ := greedyIter_inv G nw K u cs hn hcs hne
      obtain ⟨hp2, hl2⟩ := ih (greedyIter G nw K u cs).1 (greedyIter G nw K u cs).2
        (by omega) (by rw [hp]; exact hn) (by rw [hl]; exact hcs)
      constructor
      · rw [hp2, hp]
      · rw [hl2, hl]

/-! ### The node list of a built graph has no duplicates -/

theorem nodup_append_singleton {l : List String} {a : String} (h : l.Nodup)
    (ha : a ∉ l) : (l ++ [a]).Nodup := by
  rw [(List.perm_append_singleton a l).nodup_iff, List.nodup_cons]
  exact ⟨ha, h⟩

theorem nodup_insertNode {ns : List String} (h : ns.Nodup) (n : String) :
    (insertNode ns n).Nodup := by
  unfold insertNode
  split
  · exact h
  · exact nodup_append_singleton h (by assumption)

theorem addNode_nodup {G : FGraph} {n : String} {a : String × String × String}
    (h : G.nodes.Nodup) : (G.addNode n a).nodes.Nodup :=
  nodup_insertNode h n

theorem addEdge_nodup {G : FGraph} {a b : String} (h : G.nodes.Nodup) :
    (G.addEdge a b).nodes.Nodup :=
  nodup_insertNode (nodup_insertNode h a) b

theorem baseRowStep_nodup {G : FGraph} {r : StudentRow} (h : G.nodes.Nodup) :
    (baseRowStep G r).nodes.Nodup := by
  unfold baseRowStep
  have h0 : (G.addNode r.name (r.gender, r.academic, r.behavioral)).nodes.Nodup :=
    addNode_nodup h
  generalize (G.addNode r.name (r.gender, r.academic, r.behavioral)) = G0 at h0
  induction r.friends generalizing G0 with
  | nil => exact h0
  | cons f t ih =>
    simp only [List.foldl_cons]
    cases f with
    | none => exact ih _ h0
    | some v =>
      simp only [baseEdgeStep]
      split
      · exact ih _ (addEdge_nodup h0)
      · exact ih _ h0

theorem buildGraphBase_go_nodup {G : FGraph} (h : G.nodes.Nodup)
    (rs : List StudentRow) : (buildGraphBase.go G rs).nodes.Nodup := by
  induction rs generalizing G with
  | nil => exact h
  | cons r t ih => exact ih (baseRowStep_nodup h)

theorem buildGraphBase_nodes_nodup (df : List StudentRow) :
    (buildGraphBase df).nodes.Nodup :=
  buildGraphBase_go_nodup List.nodup_nil df

/-! ### From pool equality to "exactly one class contains each student" -/

theorem classPool_count (cs : List (List String)) (x : String) :
    (classPool cs).count x = (cs.map fun c => c.count x).sum := by
  induction cs with
  | nil => rfl
  | cons c t ih =>
    rw [classPool_cons, Multiset.count_add, List.map_cons, List.sum_cons, ih,
      Multiset.coe_count]

theorem countP_mem_of_count_sum_one {x : String} (cs : List (List String))
    (h : (cs.map fun c => c.count x).sum = 1) :
    cs.countP (fun c => decide (x ∈ c)) = 1 := by
  induction cs with
  | nil => simp at h
  | cons c t ih =>
    rw [List.map_cons, List.sum_cons] at h
    rw [List.countP_cons]
    by_cases hc : x ∈ c
    · have hc1 : 1 ≤ c.count x := List.count_pos_iff.mpr hc
      have ht : (t.map fun c => c.count x).sum = 0 := by omega
      have htc : t.countP (fun c => decide (x ∈ c)) = 0 := by
        rw [List.countP_eq_zero]
        intro a ha
        rw [List.sum_eq_zero_iff] at ht
        have : a.count x = 0 := ht _ (List.mem_map_of_mem _ ha)
        simpa using List.count_eq_zero.mp this
      rw [htc]
      simp [hc]
    · have hc0 : c.count x = 0 := List.count_eq_zero.mpr hc
      rw [hc0, zero_add] at h
      rw [ih h]
      simp [hc]

/-! ### Association-list lookup after a dict update -/

theorem lookup_assocSet_self (k : String) (v : α) (l : List (String × α)) :
    (assocSet k v l).lookup k = some v := by
  induction l with
  | nil => simp [assocSet, List.lookup]
  | cons p t ih =>
    unfold assocSet
    split
    · simp [List.lookup]
    · rename_i h
      simp only [List.lookup]
      have hbe : (k == p.1) = false :=
        beq_eq_false_iff_ne.mpr fun he => h he.symm
      rw [hbe]
      exact ih

theorem lookup_assocSet_ne {k k' : String} (h : k ≠ k') (v : α)
    (l : List (String × α)) : (assocSet k' v l).lookup k = l.lookup k := by
  have hbe : (k == k') = false := beq_eq_false_iff_ne.mpr h
  induction l with
  | nil =>
    simp only [assocSet, List.lookup]
    rw [hbe]
  | cons p t ih =>
    unfold assocSet
    split
    · rename_i hp
      subst hp
      simp only [List.lookup]
      rw [hbe]
    · simp only [List.lookup]
      cases hkp : k == p.1
      · exact ih
      · rfl

/-! ### C10 — the `CLASS_SIZE_TOO_SMALL` branch is unreachable -/

/-- C10: for all integers, `validate_assignment_parameters` never raises
`CLASS_SIZE_TOO_SMALL`: whenever `num_classes > 0`, `num_students > 0` and
`num_classes ≤ num_students` all pass, `num_students // num_classes ≥ 1`. -/
theorem class_size_too_small_unreachable (numStudents numClasses : ℤ) :
    resultCode (validateAssignmentParameters numStudents numClasses) ≠
      some ErrorCode.CLASS_SIZE_TOO_SMALL := by
  unfold validateAssignmentParameters
  split
  · simp [resultCode, VError.code]
  · split
    · simp [resultCode, VError.code]
    · split
      · simp [resultCode, VError.code]
      · simp only
        split
        · rename_i h1 h2 h3 h4
          exfalso
          rw [not_le] at h1 h2
          rw [not_lt] at h3
          unfold pyFloorDiv at h4
          rw [Int.fdiv_eq_ediv _ (le_of_lt h1)] at h4
          have : (1 : ℤ) ≤ numStudents / numClasses :=
            (Int.le_ediv_iff_mul_le h1).mpr (by omega)
          omega
        · simp [resultCode]

/-! ### C9 — the overall score formula -/

/-- C9: the overall score is `100` minus `20` per friendless entry, `25` per
not-with violation, `30` per unassigned and per multiply-assigned student,
`2·size_variance`, `10·avg_gender_deviation`, `5·avg_academic_deviation`,
`5·avg_behavioral_deviation`, plus `10·friendship_satisfaction_rate`,
clamped to `[0, 100]`. -/
theorem overall_score_formula (m : MetricsRec) :
    calculateOverallScore m =
      max 0 (min 100
        (100 - 20 * m.friendlessEntries.length - 25 * m.notWithEntries.length
          - 30 * m.unassignedEntries.length - 30 * m.multiplyAssignedEntries.length
          - 2 * m.sizeVariance - 10 * m.avgGenderDeviation
          - 5 * m.avgAcademicDeviation - 5 * m.avgBehavioralDeviation
          + 10 * m.satisfactionRate : ℚ)) ∧
    0 ≤ calculateOverallScore m ∧ calculateOverallScore m ≤ 100 := by
  refine ⟨?_, ?_, ?_⟩
  · have hIf : ∀ (β : Type) [DecidableEq β] (l : List β) (s c : ℚ),
        (if l ≠ [] then s - l.length * c else s) = s - l.length * c := by
      intro β _ l s c
      split
      · rfl
      · rename_i h
        rw [not_not] at h
        subst h
        simp
    unfold calculateOverallScore
    simp only
    rw [hIf, hIf, hIf, hIf]
    congr 1
    congr 1
    ring
  · exact le_max_left _ _
  · exact max_le (by norm_num) (min_le_left _ _)

/-! ### C6 — CP-SAT success metadata keys -/

/-- C6 counterexample: on a successful CP-SAT run the returned metadata holds
no `objective_value`, `num_variables` or `num_constraints` key (they stay in
the internal `solver_stats` dict and are never copied into the metadata). -/
theorem cp_sat_metadata_missing_keys :
    (cpSatMetadata 1 ⟨"OPTIMAL", 1, 5, 10, 20⟩ 2 4 30).lookup "objective_value"
        = none ∧
      (cpSatMetadata 1 ⟨"OPTIMAL", 1, 5, 10, 20⟩ 2 4 30).lookup "num_variables"
        = none ∧
      (cpSatMetadata 1 ⟨"OPTIMAL", 1, 5, 10, 20⟩ 2 4 30).lookup "num_constraints"
        = none :=
  ⟨rfl, rfl, rfl⟩

/-- C6 amended: the success metadata of the CP-SAT strategy has exactly the
keys algorithm, execution_time, solver_status, solver_time, num_classes,
num_students and timeout_used; `solver_status`, `solver_time` and
`timeout_used` are present as claimed, but `objective_value`, `num_variables`
and `num_constraints` are not. -/
theorem cp_sat_metadata_keys (t : ℚ) (st : SolverStats) (nc ns : ℕ) (ts : ℤ) :
    (cpSatMetadata t st nc ns ts).map Prod.fst =
      ["algorithm", "execution_time", "solver_status", "solver_time",
       "num_classes", "num_students", "timeout_used"] ∧
    (cpSatMetadata t st nc ns ts).lookup "solver_status" = some (.str st.status) ∧
    (cpSatMetadata t st nc ns ts).lookup "solver_time" = some (.rat st.solveTime) ∧
    (cpSatMetadata t st nc ns ts).lookup "timeout_used" = some (.int ts) ∧
    (cpSatMetadata t st nc ns ts).lookup "objective_value" = none ∧
    (cpSatMetadata t st nc ns ts).lookup "num_variables" = none ∧
    (cpSatMetadata t st nc ns ts).lookup "num_constraints" = none :=
  ⟨rfl, rfl, rfl, rfl, rfl, rfl, rfl⟩

/-! ### C3 — fallback metadata propagation -/

/-- C3: whenever the cp_sat strategy fails (raising the wrapped CP-SAT failure
text) and fallback is enabled, the coordinator returns the greedy fallback's
classes and its metadata carries `fallback_used = true`,
`original_strategy = "cp_sat"` and a non-empty `fallback_reason`. -/
theorem fallback_metadata (elapsed cause : String)
    (gcls : List (List String)) (gm : List (String × MetaVal)) :
    ∃ md,
      runWithFallback "cp_sat" true
          (.error (cpSatFailureText elapsed cause)) gcls gm = .ok (gcls, md) ∧
      md.lookup "fallback_used" = some (.boolean true) ∧
      md.lookup "original_strategy" = some (.str "cp_sat") ∧
      md.lookup "fallback_reason" = some (.str (cpSatFailureText elapsed cause)) ∧
      cpSatFailureText elapsed cause ≠ "" := by
  refine ⟨_, rfl, ?_, ?_, ?_, ?_⟩
  · rw [lookup_assocSet_ne (by decide), lookup_assocSet_ne (by decide),
      lookup_assocSet_self]
  · rw [lookup_assocSet_ne (by decide), lookup_assocSet_self]
  · rw [lookup_assocSet_self]
  · intro hemp
    have hlen := congrArg String.length hemp
    rw [cpSatFailureText, String.length_append, String.length_append,
      String.length_append] at hlen
    have c1 : "CP-SAT assignment failed after ".length = 31 := by decide
    have c2 : "s: ".length = 3 := by decide
    have c3 : "".length = 0 := by decide
    rw [c1, c2, c3] at hlen
    omega

/-! ### C2 — the greedy result is a partition -/

theorem classPool_replicate_nil (K : ℕ) :
    classPool (List.replicate K ([] : List String)) = 0 := by
  induction K with
  | zero => rfl
  | succ n ih =>
    rw [List.replicate_succ, classPool_cons, ih]
    simp

/-- C2: for every student table and every `K` with `1 ≤ K ≤ N`, the class
list returned by the greedy strategy partitions the graph's vertex set (for a
valid table, exactly the student names): every vertex lies in exactly one
class — through seeding, group pull, forced rebalancing and the final repair
move. -/
theorem greedy_partition (df : List StudentRow) (K : ℕ) (hK : 1 ≤ K)
    (_hKN : K ≤ (buildGraphBase df).nodes.length) :
    ∀ s ∈ (buildGraphBase df).nodes,
      (greedyAssignClasses df K).countP (fun c => decide (s ∈ c)) = 1 := by
  intro s hs
  have hnodup := buildGraphBase_nodes_nodup df
  have hrep : classPool (List.replicate K ([] : List String)) = 0 :=
    classPool_replicate_nil K
  have hpool0 : (((buildGraphBase df).nodes : Multiset String) +
      classPool (List.replicate K [])).Nodup := by
    rw [hrep, add_zero]
    exact Multiset.coe_nodup.mpr hnodup
  have hcs0 : 0 < (List.replicate K ([] : List String)).length := by
    rw [List.length_replicate]
    omega
  obtain ⟨hp, hl⟩ := greedyLoop_inv (buildGraphBase df) (buildNotWith df) K
    (buildGraphBase df).nodes.length (buildGraphBase df).nodes
    (List.replicate K []) (le_refl _) hpool0 hcs0
  rw [hrep, add_zero] at hp
  have hnl : (classPool (greedyLoop (buildGraphBase df) (buildNotWith df) K
      (buildGraphBase df).nodes.length (buildGraphBase df).nodes
      (List.replicate K []))).Nodup := by
    rw [hp]
    exact Multiset.coe_nodup.mpr hnodup
  obtain ⟨hvp, _⟩ := validateAssignment_pool (G := buildGraphBase df) hnl
  have hfinal : classPool (greedyAssignClasses df K) =
      ((buildGraphBase df).nodes : Multiset String) := by
    unfold greedyAssignClasses
    simp only
    rw [hvp, hp]
  have hcount : (classPool (greedyAssignClasses df K)).count s = 1 := by
    rw [hfinal]
    exact Multiset.count_eq_one_of_mem (Multiset.coe_nodup.mpr hnodup)
      (by simpa using hs)
  rw [classPool_count] at hcount
  exact countP_mem_of_count_sum_one _ hcount

/-- Witness for `greedy_partition`: the four-student table with `K = 2`. -/
theorem greedy_partition_witness :
    1 ≤ 2 ∧ 2 ≤ (buildGraphBase exTablePairs).nodes.length ∧
      (greedyAssignClasses exTablePairs 2).countP (fun c => decide ("A" ∈ c)) = 1 :=
  ⟨by decide, by decide,
    greedy_partition exTablePairs 2 (by decide) (by decide) "A" (by decide)⟩

/-! ### C1 — forbidden pairs and the greedy strategy -/

theorem enum_snd_getD {l : List (List String)} {q : ℕ × List String}
    (h : q ∈ l.enum) : l.getD q.1 [] = q.2 := by
  have hg := List.mem_enum_iff_getElem?.mp h
  rw [List.getD_eq_getElem?_getD, hg]
  rfl

theorem eligibleScores_mem_no_violation {G : FGraph}
    {nw : List (String × List String)} {s : String} {classes : List (List String)}
    {target : ℕ} {p : Frac × ℕ} (h : p ∈ eligibleScores G nw s classes target) :
    violatesNotWith nw s (classes.getD p.2 []) = false := by
  unfold eligibleScores at h
  rw [List.mem_filterMap] at h
  obtain ⟨q, hq, hfq⟩ := h
  simp only at hfq
  split at hfq
  · exact absurd hfq (by simp)
  · rename_i hnv
    split at hfq
    · exact absurd hfq (by simp)
    · simp only [Option.some.injEq] at hfq
      rw [← hfq]
      simp only
      rw [enum_snd_getD hq]
      simpa using hnv

/-- C1 counterexample: on the two-student table where Alice and Bob are mutual
friends and each lists the other as not-with, the greedy run with `K = 2` ends
with BOTH in class 1: the final repair move reunites the forbidden pair, so
separation fails even for a mutual forbidden pair. -/
theorem greedy_separation_violated :
    "Bob" ∈ ((buildNotWith exTableMutual).lookup "Alice").getD [] ∧
    "Alice" ∈ ((buildNotWith exTableMutual).lookup "Bob").getD [] ∧
    "Alice" ∈ (greedyAssignClasses exTableMutual 2).getD 1 [] ∧
    "Bob" ∈ (greedyAssignClasses exTableMutual 2).getD 1 [] := by decide

/-- C1 amended: separation is not an invariant of the greedy strategy — the
fallback placement, the balancer and the repair move perform no not-with
check, and a forbidden pair (even a mutual one) can share a class
(counterexample).  What holds of the selection step: whenever some class is
eligible, the selected class triggers no entry of the placed student's own
not-with list at selection time. -/
theorem findBestClass_eligible_no_violation (G : FGraph)
    (nw : List (String × List String)) (s : String) (classes : List (List String))
    (K : ℕ) (h : eligibleScores G nw s classes (G.nodes.length / K) ≠ []) :
    violatesNotWith nw s
      (classes.getD (findBestClass G nw s classes K) []) = false := by
  unfold findBestClass
  simp only
  rw [if_neg (by simpa [List.isEmpty_iff] using h)]
  rcases hsc : eligibleScores G nw s classes (G.nodes.length / K) with _ | ⟨a, t⟩
  · exact absurd hsc h
  · have hm : minByKey Frac.blt Prod.fst (a :: t) =
        some (minByKeyAux Frac.blt Prod.fst a t) := rfl
    rw [hm]
    have hmem : minByKeyAux Frac.blt Prod.fst a t ∈
        eligibleScores G nw s classes (G.nodes.length / K) := by
      rw [hsc]
      rcases minByKeyAux_mem Frac.blt Prod.fst a t with h' | h'
      · rw [h']; exact List.mem_cons_self a t
      · exact List.mem_cons_of_mem _ h'
    exact eligibleScores_mem_no_violation hmem

/-- Witness for `findBestClass_eligible_no_violation`: Alice with her friend
Bob already placed in class 0. -/
theorem findBestClass_eligible_no_violation_witness :
    eligibleScores (buildGraphBase exTableSix) (buildNotWith exTableSix) "Alice"
        [["Bob"], []] ((buildGraphBase exTableSix).nodes.length / 2) ≠ [] ∧
    violatesNotWith (buildNotWith exTableSix) "Alice"
      ([["Bob"], []].getD (findBestClass (buildGraphBase exTableSix)
        (buildNotWith exTableSix) "Alice" [["Bob"], []] 2) []) = false :=
  ⟨by decide,
    findBestClass_eligible_no_violation (buildGraphBase exTableSix)
      (buildNotWith exTableSix) "Alice" [["Bob"], []] 2 (by decide)⟩

/-! ### C5 — the validation sweep repairs at most one student -/

/-- C5 counterexample: on the two-pair table with `K = 2` the greedy run ends
as `[[C], [B, D, A]]`: the sweep moved A (the first friendless student found)
and returned immediately, leaving C friendless in class 0 although C's friend
D is placed in class 1. -/
theorem validation_sweep_leaves_friendless :
    greedyAssignClasses exTablePairs 2 = [["C"], ["B", "D", "A"]] ∧
    "D" ∈ (buildGraphBase exTablePairs).neighbors "C" ∧
    friendsInCount (buildGraphBase exTablePairs) "C"
      ((greedyAssignClasses exTablePairs 2).getD 0 []) = 0 ∧
    "D" ∈ (greedyAssignClasses exTablePairs 2).getD 1 [] := by decide

theorem validateScanClass_move_spec {G : FGraph} {cs : List (List String)}
    {i : ℕ} {l : List String} (hsub : ∀ x ∈ l, x ∈ cs.getD i [])
    {r : Bool × List (List String)} (h : validateScanClass G cs i l = some r) :
    r.2 = cs ∨ ∃ s j, i ≠ j ∧ s ∈ cs.getD i [] ∧
      friendsInCount G s (cs.getD i []) = 0 ∧
      (∃ f ∈ G.neighbors s, f ∈ cs.getD j []) ∧
      r.2 = moveRepair cs s i j := by
  induction l with
  | nil => simp [validateScanClass] at h
  | cons s rest ih =>
    simp only [validateScanClass] at h
    split at h
    · rename_i hfl
      rcases hft : findRepairTarget cs (G.neighbors s) with _ | j
      · rw [hft] at h
        simp only [Option.some.injEq] at h
        subst h
        exact Or.inl rfl
      · rw [hft] at h
        simp only [Option.some.injEq] at h
        subst h
        have hs : s ∈ cs.getD i [] := hsub s (List.mem_cons_self s rest)
        have hjp := List.find?_some hft
        rw [List.any_eq_true] at hjp
        obtain ⟨f, hfmem, hfin⟩ := hjp
        rw [decide_eq_true_eq] at hfin
        have hij : i ≠ j := by
          intro he
          subst he
          unfold friendsInCount at hfl
          exact absurd (by simpa using hfin)
            (by simpa using List.countP_eq_zero.mp hfl f hfmem)
        exact Or.inr ⟨s, j, hij, hs, hfl, ⟨f, hfmem, hfin⟩, rfl⟩
    · exact ih (fun x hx => hsub x (List.mem_cons_of_mem _ hx)) h

theorem validateLoop_move_spec {G : FGraph} {cs : List (List String)}
    (idxs : List ℕ) :
    (validateLoop G cs idxs).2 = cs ∨ ∃ s i j, i ≠ j ∧ s ∈ cs.getD i [] ∧
      friendsInCount G s (cs.getD i []) = 0 ∧
      (∃ f ∈ G.neighbors s, f ∈ cs.getD j []) ∧
      (validateLoop G cs idxs).2 = moveRepair cs s i j := by
  induction idxs with
  | nil => exact Or.inl rfl
  | cons i rest ih =>
    simp only [validateLoop]
    rcases hsc : validateScanClass G cs i (cs.getD i []) with _ | r
    · exact ih
    · rcases validateScanClass_move_spec (fun x hx => hx) hsc with h | ⟨s, j, hj⟩
      · exact Or.inl h
      · exact Or.inr ⟨s, i, j, hj⟩

/-- C5 amended: the sweep does not process every friendless student — it
returns at the first friendless student found, after at most ONE repair move:
the result is the input classes unchanged, or the input with exactly one
friendless student moved to a class holding one of their friends.  Any further
friendless student is left in place (counterexample). -/
theorem validateAssignment_at_most_one_move (G : FGraph)
    (cs : List (List String)) :
    (validateAssignment G cs).2 = cs ∨ ∃ s i j, i ≠ j ∧ s ∈ cs.getD i [] ∧
      friendsInCount G s (cs.getD i []) = 0 ∧
      (∃ f ∈ G.neighbors s, f ∈ cs.getD j []) ∧
      (validateAssignment G cs).2 = moveRepair cs s i j :=
  validateLoop_move_spec _

/-! ### C4 — thefallback best-class selection -/

theorem Frac.blt_ofInt (a b : ℤ) :
    Frac.blt (Frac.ofInt a) (Frac.ofInt b) = decide (a < b) := by
  simp [Frac.blt, Frac.ofInt]

/-- Python `min` over `(score, index)` pairs whose scores are the integers
`g index`: the result is an element, is `≤`-minimal, replaces the accumulator
only on a strictly smaller score, and any entry with a smaller index than the
result has a strictly larger score (given indices increase along the list). -/
theorem minByKeyAux_int_spec (g : ℕ → ℤ) (b : Frac × ℕ) (l : List (Frac × ℕ))
    (hb : b.1 = Frac.ofInt (g b.2)) (hl : ∀ p ∈ l, p.1 = Frac.ofInt (g p.2))
    (hsorted : (b :: l).Pairwise fun p q => p.2 < q.2) :
    (minByKeyAux Frac.blt Prod.fst b l = b ∨
        minByKeyAux Frac.blt Prod.fst b l ∈ l) ∧
      g (minByKeyAux Frac.blt Prod.fst b l).2 ≤ g b.2 ∧
      (∀ p ∈ l, g (minByKeyAux Frac.blt Prod.fst b l).2 ≤ g p.2) ∧
      (minByKeyAux Frac.blt Prod.fst b l = b ∨
        g (minByKeyAux Frac.blt Prod.fst b l).2 < g b.2) ∧
      (∀ p ∈ b :: l, p.2 < (minByKeyAux Frac.blt Prod.fst b l).2 →
        g (minByKeyAux Frac.blt Prod.fst b l).2 < g p.2) := by
  induction l generalizing b with
  | nil =>
    refine ⟨Or.inl rfl, le_refl _, by simp, Or.inl rfl, ?_⟩
    intro p hp hlt
    simp only [List.mem_singleton] at hp
    subst hp
    simp only [minByKeyAux] at hlt
    omega
  | cons x t ih =>
    have hx1 : x.1 = Frac.ofInt (g x.2) := hl x (List.mem_cons_self x t)
    have hbx : b.2 < x.2 := (List.pairwise_cons.mp hsorted).1 x (List.mem_cons_self x t)
    simp only [minByKeyAux]
    rw [hx1, hb, Frac.blt_ofInt]
    by_cases hgx : g x.2 < g b.2
    · rw [if_pos (by simpa using hgx)]
      obtain ⟨m_mem, m_le, m_le_all, m_strict, m_pos⟩ :=
        ih x hx1 (fun p hp => hl p (List.mem_cons_of_mem _ hp)) hsorted.of_cons
      refine ⟨?_, ?_, ?_, ?_, ?_⟩
      · rcases m_mem with h' | h'
        · right
          rw [h']
          exact List.mem_cons_self x t
        · exact Or.inr (List.mem_cons_of_mem _ h')
      · exact le_of_lt (lt_of_le_of_lt m_le hgx)
      · intro p hp
        rcases List.mem_cons.mp hp with h' | h'
        · rw [h']
          exact m_le
        · exact m_le_all p h'
      · exact Or.inr (lt_of_le_of_lt m_le hgx)
      · intro p hp hlt
        rcases List.mem_cons.mp hp with h' | h'
        · rw [h']
          exact lt_of_le_of_lt m_le hgx
        · exact m_pos p h' hlt
    · rw [if_neg (by simpa using hgx)]
      rw [not_lt] at hgx
      have hsorted' : (b :: t).Pairwise fun p q => p.2 < q.2 := by
        rw [List.pairwise_cons]
        exact ⟨fun p hp => (List.pairwise_cons.mp hsorted).1 p (List.mem_cons_of_mem _ hp),
          (List.pairwise_cons.mp hsorted.of_cons).2⟩
      obtain ⟨m_mem, m_le, m_le_all, m_strict, m_pos⟩ :=
        ih b hb (fun p hp => hl p (List.mem_cons_of_mem _ hp)) hsorted'
      refine ⟨?_, m_le, ?_, m_strict, ?_⟩
      · rcases m_mem with h' | h'
        · exact Or.inl h'
        · exact Or.inr (List.mem_cons_of_mem _ h')
      · intro p hp
        rcases List.mem_cons.mp hp with h' | h'
        · rw [h']
          exact le_trans m_le hgx
        · exact m_le_all p h'
      · intro p hp hlt
        rcases List.mem_cons.mp hp with h' | h'
        · exact m_pos p (by rw [h']; exact List.mem_cons_self b t) hlt
        · rcases List.mem_cons.mp h' with h'' | h''
          · rcases m_strict with hmb | hmb
            · exfalso
              rw [hmb] at hlt
              rw [h''] at hlt
              omega
            · rw [h'']
              exact lt_of_lt_of_le hmb hgx
          · exact m_pos p (List.mem_cons_of_mem _ h'') hlt

theorem fallbackScores_pairwise (G : FGraph) (s : String)
    (classes : List (List String)) :
    (fallbackScores G s classes).Pairwise fun p q => p.2 < q.2 := by
  unfold fallbackScores
  rw [List.pairwise_map]
  have h1 : (classes.enum.map Prod.fst).Pairwise (· < ·) := by
    rw [List.enum_eq_zip_range, List.map_fst_zip _ _ (by simp)]
    exact List.pairwise_lt_range _
  rw [List.pairwise_map] at h1
  exact h1.imp fun h => h

theorem fallbackScores_mem_shape {G : FGraph} {s : String}
    {classes : List (List String)} {p : Frac × ℕ}
    (h : p ∈ fallbackScores G s classes) :
    p.1 = Frac.ofInt (-(friendsOutCount G s (classes.getD p.2 []) : ℤ)) := by
  unfold fallbackScores at h
  rw [List.mem_map] at h
  obtain ⟨q, hq, hfq⟩ := h
  rw [← hfq]
  simp only
  rw [enum_snd_getD hq]

theorem fallbackScores_complete {G : FGraph} {s : String}
    {classes : List (List String)} {j : ℕ} (hj : j < classes.length) :
    (Frac.ofInt (-(friendsOutCount G s (classes.getD j []) : ℤ)), j) ∈
      fallbackScores G s classes := by
  unfold fallbackScores
  rw [List.mem_map]
  refine ⟨(j, classes.getD j []), ?_, rfl⟩
  rw [List.mem_enum_iff_getElem?]
  simp only
  rw [List.getElem?_eq_getElem hj, List.getD_eq_getElem?_getD,
    List.getElem?_eq_getElem hj]
  rfl

/-- C4 counterexample: Bob's only friend Alice sits in class 0, which he may
not join (not-with) — no class is eligible.  The fallback picks class 1,
although class 0 is the unique minimizer of Bob's friends-outside count
(0 versus 1), so the claimed minimization rule would pick class 0. -/
theorem fallback_choice_not_minimizer :
    eligibleScores (buildGraphBase exTableMutual) (buildNotWith exTableMutual)
        "Bob" [["Alice"], []] ((buildGraphBase exTableMutual).nodes.length / 2)
        = [] ∧
    findBestClass (buildGraphBase exTableMutual) (buildNotWith exTableMutual)
        "Bob" [["Alice"], []] 2 = 1 ∧
    friendsOutCount (buildGraphBase exTableMutual) "Bob"
        ([["Alice"], ([] : List String)].getD 0 []) <
      friendsOutCount (buildGraphBase exTableMutual) "Bob"
        ([["Alice"], ([] : List String)].getD 1 []) := by decide

/-- C4 amended: when no class is eligible, `_find_best_class` minimizes the
NEGATED count of the student's friends outside each class, i.e. it picks the
class MAXIMIZING the number of the student's friends outside it (equivalently,
holding the fewest of their friends), ties broken by lowest class index. -/
theorem findBestClass_fallback_spec (G : FGraph)
    (nw : List (String × List String)) (s : String)
    (classes : List (List String)) (K : ℕ) (hcs : 0 < classes.length)
    (helig : eligibleScores G nw s classes (G.nodes.length / K) = []) :
    findBestClass G nw s classes K < classes.length ∧
      (∀ j < classes.length,
        friendsOutCount G s (classes.getD j []) ≤
          friendsOutCount G s (classes.getD (findBestClass G nw s classes K) [])) ∧
      (∀ j < findBestClass G nw s classes K,
        friendsOutCount G s (classes.getD j []) <
          friendsOutCount G s (classes.getD (findBestClass G nw s classes K) [])) := by
  unfold findBestClass
  simp only
  rw [if_pos (by rw [helig]; rfl)]
  rcases hfs : fallbackScores G s classes with _ | ⟨a, t⟩
  · exfalso
    have hlen : (fallbackScores G s classes).length = classes.length := by
      simp [fallbackScores]
    rw [hfs] at hlen
    simp at hlen
    omega
  · have hm : minByKey Frac.blt Prod.fst (a :: t) =
        some (minByKeyAux Frac.blt Prod.fst a t) := rfl
    rw [hm]
    have hred : ((some (minByKeyAux Frac.blt Prod.fst a t)).map Prod.snd).getD 0 =
        (minByKeyAux Frac.blt Prod.fst a t).2 := rfl
    rw [hred]
    set m := minByKeyAux Frac.blt Prod.fst a t with hmdef
    have hmem : m ∈ a :: t := by
      rcases minByKeyAux_mem Frac.blt Prod.fst a t with h' | h'
      · rw [hmdef, h']
        exact List.mem_cons_self a t
      · rw [hmdef]
        exact List.mem_cons_of_mem _ h'
    have hout : ∀ p ∈ a :: t, p.1 =
        Frac.ofInt ((fun i => -(friendsOutCount G s (classes.getD i []) : ℤ)) p.2) := by
      intro p hp
      exact fallbackScores_mem_shape (by rw [hfs]; exact hp)
    have hsorted : (a :: t).Pairwise fun p q : Frac × ℕ => p.2 < q.2 := by
      have hp := fallbackScores_pairwise G s classes
      rwa [hfs] at hp
    obtain ⟨_, m_le_a, m_le_all, _, m_pos⟩ :=
      minByKeyAux_int_spec (fun i => -(friendsOutCount G s (classes.getD i []) : ℤ))
        a t (hout a (List.mem_cons_self a t))
        (fun p hp => hout p (List.mem_cons_of_mem _ hp)) hsorted
    rw [← hmdef] at m_le_a m_le_all m_pos
    have hma : ∀ p ∈ a :: t,
        -(friendsOutCount G s (classes.getD m.2 []) : ℤ) ≤
          -(friendsOutCount G s (classes.getD p.2 []) : ℤ) := by
      intro p hp
      rcases List.mem_cons.mp hp with h' | h'
      · rw [h']
        exact m_le_a
      · exact m_le_all p h'
    have hmlt : m.2 < classes.length :=
      fallbackScores_mem_lt (p := m) (by rw [hfs]; exact hmem)
    refine ⟨hmlt, ?_, ?_⟩
    · intro j hj
      have hc := @fallbackScores_complete G s classes j hj
      rw [hfs] at hc
      have h2 := hma _ hc
      simp only at h2
      omega
    · intro j hj
      have hjlt : j < classes.length := lt_trans hj hmlt
      have hc := @fallbackScores_complete G s classes j hjlt
      rw [hfs] at hc
      have h2 := m_pos _ hc (by simpa using hj)
      simp only at h2
      omega

/-- Witness for `findBestClass_fallback_spec`: Bob against `[[Alice], []]`. -/
theorem findBestClass_fallback_spec_witness :
    0 < ([["Alice"], ([] : List String)]).length ∧
    eligibleScores (buildGraphBase exTableMutual) (buildNotWith exTableMutual)
        "Bob" [["Alice"], []] ((buildGraphBase exTableMutual).nodes.length / 2)
        = [] ∧
    findBestClass (buildGraphBase exTableMutual) (buildNotWith exTableMutual)
        "Bob" [["Alice"], []] 2 < 2 :=
  ⟨by decide, by decide,
    (findBestClass_fallback_spec (buildGraphBase exTableMutual)
      (buildNotWith exTableMutual) "Bob" [["Alice"], []] 2 (by decide)
      (by decide)).1⟩

/-! ### C7 — blank friend cells and the two graph builders -/

theorem mem_insertNode {ns : List String} {n x : String} :
    x ∈ insertNode ns n ↔ x ∈ ns ∨ x = n := by
  unfold insertNode
  split
  · rename_i h
    exact ⟨Or.inl, fun hx => hx.elim id fun he => he ▸ h⟩
  · rw [List.mem_append, List.mem_singleton]

theorem mem_addNode_nodes {G : FGraph} {n x : String}
    {a : String × String × String} :
    x ∈ (G.addNode n a).nodes ↔ x ∈ G.nodes ∨ x = n :=
  mem_insertNode

theorem mem_addEdge_nodes {G : FGraph} {a b x : String} :
    x ∈ (G.addEdge a b).nodes ↔ x ∈ G.nodes ∨ x = a ∨ x = b := by
  show x ∈ insertNode (insertNode G.nodes a) b ↔ _
  rw [mem_insertNode, mem_insertNode]
  tauto

theorem mem_baseRow_fold {name : String} {fs : List (Option String)}
    {G0 : FGraph} {x : String} :
    x ∈ (fs.foldl (baseEdgeStep name) G0).nodes ↔
      x ∈ G0.nodes ∨
        ∃ v : String, some v ∈ fs ∧ pyStrip v ≠ "" ∧ (x = name ∨ x = v) := by
  induction fs generalizing G0 with
  | nil => simp
  | cons f t ih =>
    simp only [List.foldl_cons]
    cases f with
    | none =>
      rw [show baseEdgeStep name G0 none = G0 from rfl, ih]
      constructor
      · rintro (h | ⟨v, hv, hnb, hx⟩)
        · exact Or.inl h
        · exact Or.inr ⟨v, List.mem_cons_of_mem _ hv, hnb, hx⟩
      · rintro (h | ⟨v, hv, hnb, hx⟩)
        · exact Or.inl h
        · rcases List.mem_cons.mp hv with h' | h'
          · exact absurd h' (by simp)
          · exact Or.inr ⟨v, h', hnb, hx⟩
    | some v =>
      simp only [baseEdgeStep]
      by_cases hv : pyStrip v ≠ ""
      · rw [if_pos hv, ih, mem_addEdge_nodes]
        constructor
        · rintro ((h | h | h) | ⟨v', hv', hnb, hx⟩)
          · exact Or.inl h
          · exact Or.inr ⟨v, List.mem_cons_self _ _, hv, Or.inl h⟩
          · exact Or.inr ⟨v, List.mem_cons_self _ _, hv, Or.inr h⟩
          · exact Or.inr ⟨v', List.mem_cons_of_mem _ hv', hnb, hx⟩
        · rintro (h | ⟨v', hv', hnb, hx⟩)
          · exact Or.inl (Or.inl h)
          · rcases List.mem_cons.mp hv' with h' | h'
            · rw [Option.some.injEq] at h'
              subst h'
              rcases hx with h'' | h''
              · exact Or.inl (Or.inr (Or.inl h''))
              · exact Or.inl (Or.inr (Or.inr h''))
            · exact Or.inr ⟨v', h', hnb, hx⟩
      · rw [if_neg hv, ih]
        constructor
        · rintro (h | ⟨v', hv', hnb, hx⟩)
          · exact Or.inl h
          · exact Or.inr ⟨v', List.mem_cons_of_mem _ hv', hnb, hx⟩
        · rintro (h | ⟨v', hv', hnb, hx⟩)
          · exact Or.inl h
          · rcases List.mem_cons.mp hv' with h' | h'
            · rw [Option.some.injEq] at h'
              subst h'
              exact absurd hnb hv
            · exact Or.inr ⟨v', h', hnb, hx⟩

theorem mem_baseRowStep_nodes {G : FGraph} {r : StudentRow} {x : String} :
    x ∈ (baseRowStep G r).nodes ↔
      x ∈ G.nodes ∨ x = r.name ∨
        ∃ v : String, some v ∈ r.friends ∧ pyStrip v ≠ "" ∧ x = v := by
  unfold baseRowStep
  rw [mem_baseRow_fold, mem_addNode_nodes]
  constructor
  · rintro ((h | h) | ⟨v, hv, hnb, hx | hx⟩)
    · exact Or.inl h
    · exact Or.inr (Or.inl h)
    · exact Or.inr (Or.inl hx)
    · exact Or.inr (Or.inr ⟨v, hv, hnb, hx⟩)
  · rintro (h | h | ⟨v, hv, hnb, hx⟩)
    · exact Or.inl (Or.inl h)
    · exact Or.inl (Or.inr h)
    · exact Or.inr ⟨v, hv, hnb, Or.inr hx⟩

theorem mem_buildGraphBase_go {rs : List StudentRow} {G : FGraph} {x : String} :
    x ∈ (buildGraphBase.go G rs).nodes ↔
      x ∈ G.nodes ∨ ∃ r ∈ rs, x = r.name ∨
        ∃ v : String, some v ∈ r.friends ∧ pyStrip v ≠ "" ∧ x = v := by
  induction rs generalizing G with
  | nil => simp [buildGraphBase.go]
  | cons r t ih =>
    simp only [buildGraphBase.go]
    rw [ih, mem_baseRowStep_nodes]
    constructor
    · rintro ((h | h) | ⟨r', hr', hc⟩)
      · exact Or.inl h
      · exact Or.inr ⟨r, List.mem_cons_self r t, h⟩
      · exact Or.inr ⟨r', List.mem_cons_of_mem _ hr', hc⟩
    · rintro (h | ⟨r', hr', hc⟩)
      · exact Or.inl (Or.inl h)
      · rcases List.mem_cons.mp hr' with h' | h'
        · subst h'
          exact Or.inl (Or.inr hc)
        · exact Or.inr ⟨r', h', hc⟩

/-- C7 counterexample: `ClassAssignmentService._build_friendship_graph` tests
only `pd.notna(friend)`, so Alice's empty-string friend cell adds an edge to
`""` and with it the vertex `""` — the facade graph's vertex set is NOT the
set of student names.  (The strategies' builder ignores the blank cell.) -/
theorem service_graph_blank_vertex :
    "" ∈ (buildGraphService exTableBlankCell).nodes ∧
    "" ∉ exTableBlankCell.map StudentRow.name ∧
    (buildGraphBase exTableBlankCell).nodes = ["Alice", "Bob"] := by decide

/-- C7 amended: the builder that ignores blank (empty or whitespace-only)
friend cells is `BaseAssignmentStrategy._build_friendship_graph`, used by the
strategies: for every table whose non-blank friend cells name table members,
its vertex set is exactly the student names.  The facade builder
`ClassAssignmentService._build_friendship_graph` ignores only null cells: a
blank non-null cell adds the vertex `""` (counterexample). -/
theorem base_graph_nodes_eq_names (df : List StudentRow)
    (hvalid : friendCellsResolvable df = true) :
    ∀ x, x ∈ (buildGraphBase df).nodes ↔ x ∈ df.map StudentRow.name := by
  intro x
  unfold buildGraphBase
  rw [mem_buildGraphBase_go]
  unfold friendCellsResolvable at hvalid
  rw [List.all_eq_true] at hvalid
  constructor
  · rintro (h | ⟨r, hr, h | ⟨v, hv, hnb, hxv⟩⟩)
    · exact absurd h (by simp [FGraph.empty])
    · rw [h]
      exact List.mem_map_of_mem _ hr
    · have h2 := hvalid r hr
      rw [List.all_eq_true] at h2
      have h3 := h2 (some v) hv
      simp only [Bool.or_eq_true, decide_eq_true_eq] at h3
      rw [hxv]
      rcases h3 with h4 | h4
      · exact absurd h4 hnb
      · exact h4
  · intro h
    rw [List.mem_map] at h
    obtain ⟨r, hr, rfl⟩ := h
    exact Or.inr ⟨r, hr, Or.inl rfl⟩

/-- Witness for `base_graph_nodes_eq_names` at the blank-cell table. -/
theorem base_graph_nodes_eq_names_witness :
    friendCellsResolvable exTableBlankCell = true ∧
    ("Bob" ∈ (buildGraphBase exTableBlankCell).nodes ↔
      "Bob" ∈ exTableBlankCell.map StudentRow.name) :=
  ⟨by decide, base_graph_nodes_eq_names exTableBlankCell (by decide) "Bob"⟩

/-! ### C8 — order of the no-friends and unknown-friend checks -/

theorem rowFriendless_cells {r : StudentRow} (h : rowFriendless r = true) :
    ∀ f ∈ r.friends, f = none ∨ f = some "" := by
  unfold rowFriendless at h
  rw [List.all_eq_true] at h
  intro f hf
  have h2 := h f hf
  cases f with
  | none => exact Or.inl rfl
  | some v =>
    simp only [decide_eq_true_eq] at h2
    exact Or.inr (by rw [h2])

theorem rowFriendless_false_cell {r : StudentRow} (h : ¬rowFriendless r = true) :
    ∃ v : String, some v ∈ r.friends ∧ v ≠ "" := by
  unfold rowFriendless at h
  rw [List.all_eq_true] at h
  push_neg at h
  obtain ⟨f, hf, hp⟩ := h
  cases f with
  | none => exact absurd rfl hp
  | some v =>
    simp only [ne_eq, decide_eq_true_eq] at hp
    exact ⟨v, hf, hp⟩

theorem scanFriendCells_blank {names : List String} {rowName : String}
    {fs : List (Option String)} (h : ∀ f ∈ fs, f = none ∨ f = some "")
    (G : FGraph) (has : Bool) :
    scanFriendCells names G rowName fs has = .ok (G, has) := by
  induction fs with
  | nil => rfl
  | cons f t ih =>
    rcases h f (List.mem_cons_self f t) with rfl | rfl
    · exact ih fun f hf => h f (List.mem_cons_of_mem _ hf)
    · simp only [scanFriendCells]
      rw [if_neg (by simp)]
      exact ih fun f hf => h f (List.mem_cons_of_mem _ hf)

theorem scanFriendCells_known {names : List String} {rowName : String}
    {fs : List (Option String)}
    (h : ∀ f ∈ fs, ∀ v : String, f = some v → v = "" ∨ v ∈ names) :
    ∀ (G : FGraph) (has : Bool), ∃ G' has',
      scanFriendCells names G rowName fs has = .ok (G', has') ∧
        (has' = true ↔ (has = true ∨ ∃ v : String, some v ∈ fs ∧ v ≠ "")) := by
  induction fs with
  | nil =>
    intro G has
    exact ⟨G, has, rfl, by simp⟩
  | cons f t ih =>
    intro G has
    have ht : ∀ f ∈ t, ∀ v : String, f = some v → v = "" ∨ v ∈ names :=
      fun f hf v hv => h f (List.mem_cons_of_mem _ hf) v hv
    cases f with
    | none =>
      obtain ⟨G', has', heq, hiff⟩ := ih ht G has
      refine ⟨G', has', heq, ?_⟩
      rw [hiff]
      constructor
      · rintro (h' | ⟨v, hv, hne⟩)
        · exact Or.inl h'
        · exact Or.inr ⟨v, List.mem_cons_of_mem _ hv, hne⟩
      · rintro (h' | ⟨v, hv, hne⟩)
        · exact Or.inl h'
        · rcases List.mem_cons.mp hv with h'' | h''
          · exact absurd h'' (by simp)
          · exact Or.inr ⟨v, h'', hne⟩
    | some v =>
      by_cases hv : v = ""
      · subst hv
        simp only [scanFriendCells]
        rw [if_neg (by simp)]
        obtain ⟨G', has', heq, hiff⟩ := ih ht G has
        refine ⟨G', has', heq, ?_⟩
        rw [hiff]
        constructor
        · rintro (h' | ⟨v', hv', hne⟩)
          · exact Or.inl h'
          · exact Or.inr ⟨v', List.mem_cons_of_mem _ hv', hne⟩
        · rintro (h' | ⟨v', hv', hne⟩)
          · exact Or.inl h'
          · rcases List.mem_cons.mp hv' with h'' | h''
            · rw [Option.some.injEq] at h''
              subst h''
              exact absurd rfl hne
            · exact Or.inr ⟨v', h'', hne⟩
      · have hvn : v ∈ names :=
          (h (some v) (List.mem_cons_self _ t) v rfl).resolve_left hv
        simp only [scanFriendCells]
        rw [if_pos hv, if_neg (by simpa using hvn)]
        obtain ⟨G', has', heq, hiff⟩ := ih ht (G.addEdge rowName v) true
        refine ⟨G', has', heq, ?_⟩
        rw [hiff]
        constructor
        · intro _
          exact Or.inr ⟨v, List.mem_cons_self _ t, hv⟩
        · intro _
          exact Or.inl rfl

theorem validateRowsGo_no_friends (names : List String) (rows : List StudentRow)
    (hknown : ∀ r ∈ rows, ∀ f ∈ r.friends, ∀ v : String, f = some v →
      v = "" ∨ v ∈ names)
    (hnf : ∃ r ∈ rows, rowFriendless r = true) :
    ∀ G : FGraph, ∃ n, validateRowsGo names G rows =
      .error (.studentNoFriends n) := by
  induction rows with
  | nil =>
    obtain ⟨r, hr, _⟩ := hnf
    exact absurd hr (by simp)
  | cons r rs ih =>
    intro G
    by_cases hrf : rowFriendless r = true
    · have hscan := @scanFriendCells_blank names r.name r.friends
        (rowFriendless_cells hrf) G false
      refine ⟨r.name, ?_⟩
      simp only [validateRowsGo]
      rw [hscan]
      rfl
    · obtain ⟨G', has', heq, hiff⟩ :=
        @scanFriendCells_known names r.name r.friends
          (fun f hf v hv => hknown r (List.mem_cons_self r rs) f hf v hv) G false
      have hhas : has' = true := hiff.mpr (Or.inr (rowFriendless_false_cell hrf))
      subst hhas
      have hnf' : ∃ r' ∈ rs, rowFriendless r' = true := by
        obtain ⟨r', hr', hfr'⟩ := hnf
        rcases List.mem_cons.mp hr' with h' | h'
        · exact absurd (h' ▸ hfr') hrf
        · exact ⟨r', h', hfr'⟩
      obtain ⟨n, hn⟩ := ih
        (fun r' hr' f hf v hv => hknown r' (List.mem_cons_of_mem _ hr') f hf v hv)
        hnf' G'
      refine ⟨n, ?_⟩
      simp only [validateRowsGo]
      rw [heq]
      exact hn

/-- C8 counterexample: Alice (row 0) lists the unknown friend "Zork" while Bob
(row 1) lists no non-empty friend; the validator raises `UNKNOWN_FRIEND`, not
`STUDENT_NO_FRIENDS`, because the checks interleave per row and Alice's row is
scanned first. -/
theorem unknown_friend_preempts_no_friends :
    (∃ r ∈ exTableUnknownThenNoFriends, rowFriendless r = true) ∧
    resultCode (validateFriendshipNetwork exTableUnknownThenNoFriends) =
      some ErrorCode.UNKNOWN_FRIEND := by decide

/-- C8 amended: the no-friends and unknown-friend checks are interleaved per
row (within a row, the unknown-friend scan of the cells precedes that row's
no-friends check); a friendless student does cause `STUDENT_NO_FRIENDS`
whenever no student lists an unknown friend, but an unknown friend in an
earlier row preempts it (counterexample). -/
theorem no_friends_error_when_friends_known (df : List StudentRow)
    (hnf : ∃ r ∈ df, rowFriendless r = true)
    (hknown : friendCellsKnown df = true) :
    ∃ n, validateFriendshipNetwork df = .error (.studentNoFriends n) := by
  unfold validateFriendshipNetwork
  simp only
  have hknown' : ∀ r ∈ df, ∀ f ∈ r.friends, ∀ v : String, f = some v →
      v = "" ∨ v ∈ df.map StudentRow.name := by
    unfold friendCellsKnown at hknown
    rw [List.all_eq_true] at hknown
    intro r hr f hf v hv
    have h2 := hknown r hr
    rw [List.all_eq_true] at h2
    have h3 := h2 f hf
    subst hv
    simp only [Bool.or_eq_true, decide_eq_true_eq] at h3
    exact h3
  obtain ⟨n, hn⟩ := validateRowsGo_no_friends (df.map (fun r => r.name)) df
    hknown' hnf (df.foldl (fun g r => g.addNode r.name ("", "", "")) FGraph.empty)
  exact ⟨n, by rw [hn]⟩

/-- Witness for `no_friends_error_when_friends_known`: Bob lists no friend and
every listed friend exists. -/
theorem no_friends_error_when_friends_known_witness :
    (∃ r ∈ exTableNoFriendsOnly, rowFriendless r = true) ∧
    friendCellsKnown exTableNoFriendsOnly = true ∧
    ∃ n, validateFriendshipNetwork exTableNoFriendsOnly =
      .error (.studentNoFriends n) :=
  ⟨by decide, by decide,
    no_friends_error_when_friends_known exTableNoFriendsOnly (by decide) (by decide)⟩

end Classrooms
